import Mathlib

set_option maxRecDepth 100000

/-!
Verification of the QtSmtpClient library (MIME composer and SMTP driver)
against its natural-language specification.

The development is a shallow embedding of `src/utils/smtp/smtp_mime.cpp`,
`src/utils/smtp/smtp_client.cpp` and `src/utils/rtloghandler.cpp`:

* `QByteArray` values are `List Nat` (one `Nat` per byte, each < 256);
* `QString` values are `List Nat` (one `Nat` per Unicode code point; Qt
  specifics such as UTF-16 surrogate pairs do not matter for any claim);
* fallible serialisation returns `Option`; the sink is the "accepts every
  write" sink, so `QIODevice::write` never fails and the produced bytes are
  accumulated in the `Option` payload;
* the boundary source (`QUuid::createUuid().toRfc4122().toHex()`), the
  wall clock (`Date:` header) and the HMAC-MD5 primitive are external
  collaborators (spec section 6) and are passed in as parameters.
-/

/-- Converts a Lean string literal of ASCII text into its byte list. Used
only to transcribe the C++ byte-array literals. -/
def ascii (s : String) : List Nat :=
  s.data.map Char.toNat

/-- Byte test for `[0-9A-Za-z]`. -/
def isAlnumByte (b : Nat) : Bool :=
  (48 ≤ b && b ≤ 57) || (65 ≤ b && b ≤ 90) || (97 ≤ b && b ≤ 122)

/-- Byte test for an uppercase hexadecimal digit `[0-9A-F]`. -/
def isHexUpDigit (b : Nat) : Bool :=
  (48 ≤ b && b ≤ 57) || (65 ≤ b && b ≤ 70)

/-- Uppercase hexadecimal digit of a value below 16 (`QByteArray::toHex`
followed by `toUpper`). -/
def hexDigitUpper (n : Nat) : Nat :=
  if n < 10 then 48 + n else 55 + n

/-- Lowercase hexadecimal digit of a value below 16 (`QByteArray::toHex`). -/
def hexDigitLower (n : Nat) : Nat :=
  if n < 10 then 48 + n else 87 + n

/-- The two uppercase hex digits of a byte, as produced by
`QByteArray(1, c).toHex().toUpper()`. -/
def byteHexUpper (b : Nat) : List Nat :=
  [hexDigitUpper (b / 16 % 16), hexDigitUpper (b % 16)]

/-- UTF-8 encoding of one Unicode code point (`QString::toUtf8`). -/
def utf8Encode (c : Nat) : List Nat :=
  if c < 128 then [c]
  else if c < 2048 then [192 + c / 64, 128 + c % 64]
  else if c < 65536 then [224 + c / 4096, 128 + c / 64 % 64, 128 + c % 64]
  else [240 + c / 262144, 128 + c / 4096 % 64, 128 + c / 64 % 64, 128 + c % 64]

/-- UTF-8 bytes of a whole string (`QString::toUtf8`). -/
def strToUtf8 (s : List Nat) : List Nat :=
  s.flatMap utf8Encode

/-- Latin-1 bytes of a string (`QString::toLatin1`); code points above 255
become a question mark. -/
def latin1Str (s : List Nat) : List Nat :=
  s.map (fun c => if c < 256 then c else 63)

/-- Embedding of `pn_needEscapeForQuotedPrintableEncoding` from
`smtp_mime.cpp`. The C++ parameter is a signed `qint8`, so a byte at or
above 128 is seen as a negative value there; `sgn` reproduces that signed
reading for bytes below 256. -/
def pn_needEscapeForQuotedPrintableEncoding (b : Nat) : Bool :=
  let sgn : Int := if b ≤ 127 then (b : Int) else (b : Int) - 256
  if 48 ≤ sgn ∧ sgn ≤ 57 then false
  else if 65 ≤ sgn ∧ sgn ≤ 90 then false
  else if 97 ≤ sgn ∧ sgn ≤ 122 then false
  else true

/-- Byte loop of `MimeUtils::encodeQuotedPrintable`: each UTF-8 byte is
either passed through or emitted as `=` plus two uppercase hex digits. -/
def qpEncodeBytes : List Nat → List Nat
  | [] => []
  | b :: rest =>
    if pn_needEscapeForQuotedPrintableEncoding b then
      (61 :: byteHexUpper b) ++ qpEncodeBytes rest
    else
      b :: qpEncodeBytes rest

/-- Embedding of `MimeUtils::encodeQuotedPrintable` (smtp_mime.cpp:79):
empty fast path, then the byte loop over the UTF-8 encoding of the text. -/
def encodeQuotedPrintable (text : List Nat) : List Nat :=
  if text.isEmpty then [] else qpEncodeBytes (strToUtf8 text)

/-- Per-byte behaviour claimed by the specification for quoted-printable
encoding: a byte in `[0-9A-Za-z]` passes through unchanged, every other
byte becomes `=HH` with uppercase hex digits. Stated from the spec's
words, to be compared with the source-derived `encodeQuotedPrintable`. -/
def specQpByte (b : Nat) : List Nat :=
  if isAlnumByte b then [b] else 61 :: byteHexUpper b

/-- Loop of `MimeUtils::formatQuotedPrintableIntoLines` (smtp_mime.cpp:102).
A unit is one byte, or the full three bytes `=HH` when the current byte is
`=` (`requiredBytes = 3`); before a unit that would make the current line
exceed `maxSrc = maxLineSize - 1`, the soft break `=\r\n` is emitted. The
second accumulator is `lastLineSize`. -/
def qpFoldGo (maxSrc : Int) : List Nat → Int → List Nat
  | [], _ => []
  | b :: rest, lls =>
    if b = 61 then
      match rest with
      | h1 :: h2 :: rest2 =>
        if lls + 3 > maxSrc then 61 :: 13 :: 10 :: b :: h1 :: h2 :: qpFoldGo maxSrc rest2 3
        else b :: h1 :: h2 :: qpFoldGo maxSrc rest2 (lls + 3)
      | [h1] => if lls + 3 > maxSrc then [61, 13, 10, b, h1] else [b, h1]
      | [] => if lls + 3 > maxSrc then [61, 13, 10, b] else [b]
    else
      if lls + 1 > maxSrc then 61 :: 13 :: 10 :: b :: qpFoldGo maxSrc rest 1
      else b :: qpFoldGo maxSrc rest (lls + 1)

/-- Embedding of `MimeUtils::formatQuotedPrintableIntoLines`. -/
def formatQuotedPrintableIntoLines (encoded : List Nat) (maxLineSize : Int) : List Nat :=
  if maxLineSize ≤ 0 then encoded
  else if encoded.isEmpty then encoded
  else qpFoldGo (maxLineSize - 1) encoded 0

/-- Loop of `MimeUtils::formatDataIntoLines` (smtp_mime.cpp:143): hard
break `\r\n` once `lastLineSize` reaches `maxLineSize`. -/
def dataFoldGo (maxLineSize : Int) : List Nat → Int → List Nat
  | [], _ => []
  | b :: rest, lls =>
    if lls ≥ maxLineSize then 13 :: 10 :: b :: dataFoldGo maxLineSize rest 1
    else b :: dataFoldGo maxLineSize rest (lls + 1)

/-- Embedding of `MimeUtils::formatDataIntoLines`. -/
def formatDataIntoLines (data : List Nat) (maxLineSize : Int) : List Nat :=
  if maxLineSize ≤ 0 then data
  else if data.isEmpty then data
  else dataFoldGo maxLineSize data 0

/-- Splits a byte stream into its lines at every CRLF pair. Used to state
the line-length bound of the folding claims. -/
def splitCRLF : List Nat → List (List Nat)
  | [] => [[]]
  | [b] => [[b]]
  | b :: c :: rest =>
    if b = 13 ∧ c = 10 then [] :: splitCRLF rest
    else
      match splitCRLF (c :: rest) with
      | f :: r => (b :: f) :: r
      | [] => [[b]]

/-- A line of quoted-printable output is well formed when it is a
sequence of pass-through bytes and whole `=HH` escapes, optionally ended
by the lone `=` of a soft break: no `=HH` escape is split across lines. -/
def lineOk : List Nat → Bool
  | [] => true
  | b :: rest =>
    if b = 61 then
      match rest with
      | [] => true
      | [_] => false
      | h1 :: h2 :: rest2 => isHexUpDigit h1 && isHexUpDigit h2 && lineOk rest2
    else
      isAlnumByte b && lineOk rest

/-- Well-formed quoted-printable streams: every byte is either a
pass-through alphanumeric byte or part of a whole `=HH` escape. Exactly
the streams `encodeQuotedPrintable` produces. -/
inductive QPunits : List Nat → Prop where
  | nil : QPunits []
  | alnum (b : Nat) (rest : List Nat) :
      isAlnumByte b = true → QPunits rest → QPunits (b :: rest)
  | esc (h1 h2 : Nat) (rest : List Nat) :
      isHexUpDigit h1 = true → isHexUpDigit h2 = true → QPunits rest →
      QPunits (61 :: h1 :: h2 :: rest)

/-- The chunk-size reduction step of the encoded-word loops:
`maxEncodedTextSize = (maxEncodedTextSize / 2) + (maxEncodedTextSize % 2)`,
that is, the ceiling of half. -/
def ceilHalf (n : Nat) : Nat :=
  n / 2 + n % 2

/-- Loop of `pn_splitTextIntoChunks` (smtp_mime.cpp:37): characters are
appended to the last chunk, a new chunk starting whenever the last one
holds `maxChunkSize` characters; this yields the consecutive
`maxChunkSize`-sized slices of the text (the last slice may be shorter).
Callers always pass a positive size; `max n 1` only keeps the function
total. -/
def chunksGo (n : Nat) : List Nat → List (List Nat)
  | [] => []
  | a :: l => ((a :: l).take (max n 1)) :: chunksGo n ((a :: l).drop (max n 1))
termination_by l => l.length
decreasing_by simp only [List.length_drop, List.length_cons]; omega

/-- Embedding of `pn_splitTextIntoChunks` (smtp_mime.cpp:37). -/
def pn_splitTextIntoChunks (text : List Nat) (maxChunkSize : Int) : List (List Nat) :=
  if text.isEmpty then []
  else if maxChunkSize ≤ 0 ∨ (text.length : Int) ≤ maxChunkSize then [text]
  else chunksGo maxChunkSize.toNat text

/-- Base64 digit of a 6-bit value (`QByteArray::toBase64` alphabet). -/
def b64Digit (n : Nat) : Nat :=
  if n < 26 then 65 + n
  else if n < 52 then 97 + (n - 26)
  else if n < 62 then 48 + (n - 52)
  else if n = 62 then 43
  else 47

/-- Embedding of `QByteArray::toBase64`: groups of three bytes become four
digits, with `=` padding for a short final group. -/
def toBase64 : List Nat → List Nat
  | [] => []
  | [a] => [b64Digit (a / 4), b64Digit (a % 4 * 16), 61, 61]
  | [a, b] => [b64Digit (a / 4), b64Digit (a % 4 * 16 + b / 16), b64Digit (b % 16 * 4), 61]
  | a :: b :: c :: rest =>
    [b64Digit (a / 4), b64Digit (a % 4 * 16 + b / 16), b64Digit (b % 16 * 4 + c / 64),
      b64Digit (c % 64)] ++ toBase64 rest

/-- One Q encoded word (smtp_mime.cpp:196): prefix, quoted-printable
payload of the chunk, suffix. -/
def mimeWordQ (chunk : List Nat) : List Nat :=
  ascii "=?utf-8?Q?" ++ encodeQuotedPrintable chunk ++ ascii "?="

/-- One B encoded word (smtp_mime.cpp:235): prefix, base64 payload of the
UTF-8 bytes of the chunk, suffix. -/
def mimeWordB (chunk : List Nat) : List Nat :=
  ascii "=?utf-8?B?" ++ toBase64 (strToUtf8 chunk) ++ ascii "?="

/-- The words produced by one iteration of `encodeMimeWordQ` at chunk
size `n`. -/
def wordsQ (t : List Nat) (n : Nat) : List (List Nat) :=
  (pn_splitTextIntoChunks t (n : Int)).map mimeWordQ

/-- The words produced by one iteration of `encodeMimeWordB` at chunk
size `n`. -/
def wordsB (t : List Nat) (n : Nat) : List (List Nat) :=
  (pn_splitTextIntoChunks t (n : Int)).map mimeWordB

/-- `longestWordSize` accumulator of the encoded-word loops. -/
def longestWordSize (ws : List (List Nat)) : Nat :=
  ws.foldl (fun m w => max m w.length) 0

/-- Iteration of `MimeUtils::encodeMimeWordQ` (smtp_mime.cpp:186): stop
as soon as every word fits `maxWordSize` or the chunk size has reached 1,
joining the words with CRLF-space; otherwise retry at the ceiling of half
the chunk size. -/
def encodeMimeWordQloop (t : List Nat) (mws : Int) (n : Nat) : List Nat :=
  if (longestWordSize (wordsQ t n) : Int) ≤ mws ∨ n ≤ 1 then
    List.intercalate (ascii "\r\n ") (wordsQ t n)
  else encodeMimeWordQloop t mws (ceilHalf n)
termination_by n
decreasing_by simp only [ceilHalf]; omega

/-- Embedding of `MimeUtils::encodeMimeWordQ`. -/
def encodeMimeWordQ (t : List Nat) (mws : Int) : List Nat :=
  if t.isEmpty then [] else encodeMimeWordQloop t mws t.length

/-- Iteration of `MimeUtils::encodeMimeWordB` (smtp_mime.cpp:225). -/
def encodeMimeWordBloop (t : List Nat) (mws : Int) (n : Nat) : List Nat :=
  if (longestWordSize (wordsB t n) : Int) ≤ mws ∨ n ≤ 1 then
    List.intercalate (ascii "\r\n ") (wordsB t n)
  else encodeMimeWordBloop t mws (ceilHalf n)
termination_by n
decreasing_by simp only [ceilHalf]; omega

/-- Embedding of `MimeUtils::encodeMimeWordB`. -/
def encodeMimeWordB (t : List Nat) (mws : Int) : List Nat :=
  if t.isEmpty then [] else encodeMimeWordBloop t mws t.length

/-- Byte test for `[A-Za-z]`. -/
def isAlphaByte (c : Nat) : Bool :=
  (65 ≤ c && c ≤ 90) || (97 ≤ c && c ≤ 122)

/-- Character class `[A-Za-z0-9._%+-]` of the local part of
`RexPatterns::Email`. -/
def inLocalClass (c : Nat) : Bool :=
  isAlnumByte c || c = 46 || c = 95 || c = 37 || c = 43 || c = 45

/-- Character class `[A-Za-z0-9.-]` of the domain part of
`RexPatterns::Email`. -/
def inDomainClass (c : Nat) : Bool :=
  isAlnumByte c || c = 46 || c = 45

/-- Splits a list at the first occurrence of `b`, which is dropped. -/
def splitOnFirst (b : Nat) : List Nat → Option (List Nat × List Nat)
  | [] => none
  | a :: s =>
    if a = b then some ([], s)
    else
      match splitOnFirst b s with
      | none => none
      | some (l, r) => some (a :: l, r)

/-- Splits a list at the last occurrence of `b`, which is dropped. -/
def splitOnLast (b : Nat) (s : List Nat) : Option (List Nat × List Nat) :=
  match splitOnFirst b s.reverse with
  | none => none
  | some (l, r) => some (r.reverse, l.reverse)

/-- Match semantics of the anchored regex
`^[A-Za-z0-9._%+-]+@[A-Za-z0-9.-]+\.[A-Za-z]+$` (`RexPatterns::Email`,
used by `EmailAddress::isValid`). None of the three classes contains `@`,
so the string must contain exactly one `@`, with the (non-empty) local
part before it; and the final `[A-Za-z]+` cannot contain a dot, so the
`\.` of the pattern is necessarily the last dot of the domain section. -/
def emailRegexMatch (s : List Nat) : Bool :=
  match splitOnFirst 64 s with
  | none => false
  | some (lp, rest) =>
    !lp.isEmpty && lp.all inLocalClass &&
    (match splitOnLast 46 rest with
     | none => false
     | some (dom, tld) =>
       !dom.isEmpty && dom.all inDomainClass && !tld.isEmpty && tld.all isAlphaByte)

/-- Embedding of `Smtp::EmailAddress` (smtp_mime.h): an address string and
an owner (display) name. -/
structure EmailAddress where
  email : List Nat
  ownerName : List Nat
deriving DecidableEq

/-- `EmailAddress::isEmpty`: both fields empty. -/
def EmailAddress.isEmpty (a : EmailAddress) : Bool :=
  a.email.isEmpty && a.ownerName.isEmpty

/-- `EmailAddress::isValid` (smtp_mime.cpp:66): non-empty and the email
matches `RexPatterns::Email`. -/
def EmailAddress.isValid (a : EmailAddress) : Bool :=
  !a.isEmpty && emailRegexMatch a.email

/-- Embedding of `MimeUtils::encodeEmailAddress` (smtp_mime.cpp:253). -/
def encodeEmailAddress (email : EmailAddress) (maxWordSize : Int) : List Nat :=
  if !email.isValid then []
  else
    (if email.ownerName.isEmpty then []
     else encodeMimeWordQ email.ownerName maxWordSize ++ ascii "\r\n <")
    ++ latin1Str email.email
    ++ (if email.ownerName.isEmpty then [] else [62])

/-- Embedding of `MimeUtils::encodeEmailAddresses` (smtp_mime.cpp:277):
all addresses must be valid; renderings are joined with comma CRLF space. -/
def encodeEmailAddresses (emails : List EmailAddress) (maxWordSize : Int) : List Nat :=
  if emails.isEmpty then []
  else if !emails.all (fun e => e.isValid) then []
  else List.intercalate (ascii ",\r\n ")
    (emails.map (fun e => encodeEmailAddress e maxWordSize))

/-- `MimePart::ContentTransferEncoding`. -/
inductive Cte where
  | notEncoded
  | base64Enc
  | qpEnc
deriving DecidableEq

/-- `MimeFile::Disposition`. -/
inductive Disposition where
  | noDisposition
  | inlineDisp
  | attachmentDisp
deriving DecidableEq

/-- The data members shared by every `MimePart` (smtp_mime.h):
content-type, content-name, content-charset, content-transfer-encoding. -/
structure PartHeader where
  contentType : List Nat
  contentName : List Nat
  contentCharset : List Nat
  cte : Cte
deriving DecidableEq

/-- The `MimePart` class hierarchy as a tree: `MimeText`, `MimeHtml`,
`MimeFile` (with its disposition, covering `MimeInlineFile` and
`MimeAttachmentFile`), and `MimeMultiPartMixed` with its owned parts. -/
inductive MPart where
  | text (hdr : PartHeader) (content : List Nat)
  | html (hdr : PartHeader) (content : List Nat)
  | file (hdr : PartHeader) (fileContent : List Nat) (disp : Disposition)
  | multi (hdr : PartHeader) (parts : List MPart)

/-- Embedding of `MimePart::writeStdHeadersToDev` (smtp_mime.cpp:325):
fails on an empty content-type, otherwise emits the `Content-Type` header
with optional name, charset and boundary fields, then the optional
`Content-Transfer-Encoding` header. The sink accepts every write. -/
def writeStdHeadersToDev (hdr : PartHeader) (boundary : List Nat) : Option (List Nat) :=
  if hdr.contentType.isEmpty then none
  else
    some ((ascii "Content-Type: " ++ hdr.contentType
      ++ (if hdr.contentName.isEmpty then []
          else ascii ";\r\n  name=\"" ++ hdr.contentName ++ [34])
      ++ (if hdr.contentCharset.isEmpty then []
          else ascii ";\r\n  charset=" ++ hdr.contentCharset)
      ++ (if boundary.isEmpty then []
          else ascii ";\r\n  boundary=" ++ boundary)
      ++ [13, 10])
      ++ (match hdr.cte with
          | Cte.base64Enc => ascii "Content-Transfer-Encoding: base64\r\n"
          | Cte.qpEnc => ascii "Content-Transfer-Encoding: quoted-printable\r\n"
          | Cte.notEncoded => []))

mutual

/-- The virtual `MimePart::writeToDev` dispatch, one case per subclass
(smtp_mime.cpp: `MimeText` at 376, `MimeHtml` at 413, `MimeFile` at 455,
`MimeMultiPartMixed` at 518). `gen k` is the boundary the `QUuid` source
returns for the `k`-th multipart that generates one; the returned `Nat`
threads that counter. The sink accepts every write, so a call fails only
where the source returns `false` on its own. -/
def MPart.writeToDev (gen : Nat → List Nat) : MPart → Nat → Option (List Nat × Nat)
  | MPart.text hdr content, k =>
    if content.isEmpty then none
    else
      match writeStdHeadersToDev hdr [] with
      | none => none
      | some h =>
        some (h ++ [13, 10]
          ++ formatQuotedPrintableIntoLines (encodeQuotedPrintable content) 76
          ++ [13, 10], k)
  | MPart.html hdr content, k =>
    if content.isEmpty then none
    else
      match writeStdHeadersToDev hdr [] with
      | none => none
      | some h =>
        some (h ++ [13, 10]
          ++ formatQuotedPrintableIntoLines (encodeQuotedPrintable content) 76
          ++ [13, 10], k)
  | MPart.file hdr fileContent disp, k =>
    if hdr.contentName.isEmpty || fileContent.isEmpty then none
    else
      match writeStdHeadersToDev hdr [] with
      | none => none
      | some h =>
        let dispositionVal :=
          match disp with
          | Disposition.attachmentDisp =>
            ascii "Content-Disposition: attachment;\r\n  filename=\""
              ++ hdr.contentName ++ ascii "\"\r\n"
          | Disposition.inlineDisp => ascii "Content-Disposition: inline\r\n"
          | Disposition.noDisposition => []
        some (h ++ dispositionVal ++ [13, 10]
          ++ formatDataIntoLines (toBase64 fileContent) 76 ++ [13, 10], k)
  | MPart.multi hdr parts, k =>
    match parts with
    | [] => none
    | [p] => MPart.writeToDev gen p k
    | p1 :: p2 :: rest =>
      let boundaryStr := gen k
      match writeStdHeadersToDev hdr boundaryStr with
      | none => none
      | some h =>
        match writePartList gen boundaryStr (p1 :: p2 :: rest) (k + 1) with
        | none => none
        | some (body, k2) =>
          some (h ++ [13, 10] ++ body
            ++ [45, 45] ++ boundaryStr ++ [45, 45, 13, 10], k2)

/-- The per-part loop of `MimeMultiPartMixed::writeToDev`
(smtp_mime.cpp:540): each part is preceded by `--boundary\r\n` and the
loop stops at the first failing part. -/
def writePartList (gen : Nat → List Nat) (boundaryStr : List Nat) :
    List MPart → Nat → Option (List Nat × Nat)
  | [], k => some ([], k)
  | p :: rest, k =>
    match MPart.writeToDev gen p k with
    | none => none
    | some (b, k2) =>
      match writePartList gen boundaryStr rest k2 with
      | none => none
      | some (bs, k3) => some ([45, 45] ++ boundaryStr ++ [13, 10] ++ b ++ bs, k3)

end

/-- `MimeText` constructor defaults (smtp_mime.cpp:367): content type
`text/plain`, charset `UTF-8`, quoted-printable transfer encoding. -/
def mkMimeText (content : List Nat) : MPart :=
  MPart.text ⟨ascii "text/plain", [], ascii "UTF-8", Cte.qpEnc⟩ content

/-- `MimeHtml` constructor defaults (smtp_mime.cpp:404). -/
def mkMimeHtml (content : List Nat) : MPart :=
  MPart.html ⟨ascii "text/html", [], ascii "UTF-8", Cte.qpEnc⟩ content

/-- `MimeMultiPartMixed` constructor header (smtp_mime.cpp:515). -/
def multiPartMixedHeader : PartHeader :=
  ⟨ascii "multipart/mixed", [], [], Cte.notEncoded⟩

/-- The primary body slot of a message: `d_messageBody` is either a
`MimeText` or a `MimeHtml` created by the body setters. -/
inductive BodySlot where
  | text (s : List Nat)
  | html (s : List Nat)

/-- Embedding of `Smtp::MimeMessage` in its reachable states: the body
setters keep `d_messageBody` (when non-null) as the first part of
`d_multiPart`, so the message state is the body slot plus the parts added
through `addMimePart` (in order, after the body). -/
structure MimeMessage where
  senderAddress : EmailAddress
  replyToAddress : EmailAddress
  toAddresses : List EmailAddress
  ccAddresses : List EmailAddress
  messageSubject : List Nat
  messageBody : Option BodySlot
  extraParts : List MPart

/-- `MimeMessage::messageBodyText` (smtp_mime.cpp:575): the text of the
body when it is a `MimeText`, empty otherwise. -/
def MimeMessage.messageBodyText (m : MimeMessage) : List Nat :=
  match m.messageBody with
  | some (BodySlot.text s) => s
  | _ => []

/-- `MimeMessage::messageBodyHtml` (smtp_mime.cpp:600). -/
def MimeMessage.messageBodyHtml (m : MimeMessage) : List Nat :=
  match m.messageBody with
  | some (BodySlot.html s) => s
  | _ => []

/-- `MimeMessage::setMessageBodyText` (smtp_mime.cpp:559): drops the
existing body part (position 0 of the multipart) and, when the text is
non-empty, prepends a fresh `MimeText`. -/
def MimeMessage.setMessageBodyText (m : MimeMessage) (t : List Nat) : MimeMessage :=
  { m with messageBody := if t.isEmpty then none else some (BodySlot.text t) }

/-- `MimeMessage::setMessageBodyHtml` (smtp_mime.cpp:584). -/
def MimeMessage.setMessageBodyHtml (m : MimeMessage) (t : List Nat) : MimeMessage :=
  { m with messageBody := if t.isEmpty then none else some (BodySlot.html t) }

/-- `MimeMessage::addMimePart` (smtp_mime.h:357): appends to the
multipart, after the body part when one exists. -/
def MimeMessage.addMimePart (m : MimeMessage) (p : MPart) : MimeMessage :=
  { m with extraParts := m.extraParts ++ [p] }

/-- The `MimePart` a body slot stands for. -/
def bodySlotPart : BodySlot → MPart
  | BodySlot.text s => mkMimeText s
  | BodySlot.html s => mkMimeHtml s

/-- The children of the message's root multipart `d_multiPart`. -/
def MimeMessage.multiPartParts (m : MimeMessage) : List MPart :=
  match m.messageBody with
  | some b => bodySlotPart b :: m.extraParts
  | none => m.extraParts

/-- Embedding of `MimeMessage::isValid` (smtp_mime.cpp:609). -/
def MimeMessage.isValid (m : MimeMessage) : Bool :=
  m.senderAddress.isValid &&
  (m.replyToAddress.isEmpty || m.replyToAddress.isValid) &&
  !m.toAddresses.isEmpty &&
  m.toAddresses.all (fun a => a.isValid) &&
  m.ccAddresses.all (fun a => a.isValid) &&
  !m.messageSubject.isEmpty &&
  !(m.messageBodyText.isEmpty && m.messageBodyHtml.isEmpty)

/-- Embedding of `MimeMessage::writeToDev` (smtp_mime.cpp:638): validity
check, header block, root multipart, and the `\r\n.\r\n` terminator.
`dateStr` is the external clock's RFC 2822 rendering for the `Date:`
header. -/
def MimeMessage.writeToDev (gen : Nat → List Nat) (dateStr : List Nat)
    (m : MimeMessage) (k : Nat) : Option (List Nat × Nat) :=
  if !m.isValid then none
  else
    let msgHeader :=
      ascii "MIME-Version: 1.0\r\n"
      ++ ascii "Date: " ++ dateStr ++ [13, 10]
      ++ (if m.senderAddress.isEmpty then []
          else ascii "From: " ++ encodeEmailAddress m.senderAddress 60 ++ [13, 10])
      ++ (if m.replyToAddress.isEmpty then []
          else ascii "Reply-To: " ++ encodeEmailAddress m.replyToAddress 60 ++ [13, 10])
      ++ (if m.toAddresses.isEmpty then []
          else ascii "To: " ++ encodeEmailAddresses m.toAddresses 60 ++ [13, 10])
      ++ (if m.ccAddresses.isEmpty then []
          else ascii "Cc: " ++ encodeEmailAddresses m.ccAddresses 60 ++ [13, 10])
      ++ (if m.messageSubject.isEmpty then []
          else ascii "Subject: " ++ encodeMimeWordQ m.messageSubject 60 ++ [13, 10])
    match MPart.writeToDev gen (MPart.multi multiPartMixedHeader m.multiPartParts) k with
    | none => none
    | some (body, k2) => some (msgHeader ++ body ++ ascii "\r\n.\r\n", k2)

/-- Concrete counterexample message for C1: valid by `isValid`, but an
empty extra `MimeText` was added through `addMimePart`. -/
def c1msgEx : MimeMessage :=
  { senderAddress := ⟨ascii "a@b.co", []⟩
    replyToAddress := ⟨[], []⟩
    toAddresses := [⟨ascii "c@d.co", []⟩]
    ccAddresses := []
    messageSubject := [115]
    messageBody := some (BodySlot.text [104, 105])
    extraParts := [mkMimeText []] }

/-- Concrete witness message for C1: valid, with no extra parts. -/
def c1msgOk : MimeMessage :=
  { senderAddress := ⟨ascii "a@b.co", []⟩
    replyToAddress := ⟨[], []⟩
    toAddresses := [⟨ascii "c@d.co", []⟩]
    ccAddresses := []
    messageSubject := [115]
    messageBody := some (BodySlot.text [104, 105])
    extraParts := [] }

/-- `Client::PrivateData::Status` (smtp_client.cpp:19). -/
inductive PStatus where
  | disconnected
  | connected
deriving DecidableEq

/-- `Client::AuthMethod` (smtp_client.h). -/
inductive AuthMethod where
  | authNone
  | authPlain
  | authLogin
  | authCramMd5
deriving DecidableEq

/-- `Client::ConnectionType` (smtp_client.h). -/
inductive ConnectionType where
  | unknownConnection
  | tcpConnection
  | sslConnection
  | tlsConnection
deriving DecidableEq

/-- `Client::PrivateData` (smtp_client.cpp:16): the whole configuration
and lifecycle state of a client. `socketSet` models `socket != nullptr`
(a socket object exists once `setConnectionType` ran). The misspelt
`connectionTimout` field name is the source's. -/
structure ClientData where
  status : PStatus
  serverHost : List Nat
  serverPort : Nat
  clientHost : List Nat
  connectionType : ConnectionType
  accountUsername : List Nat
  accountPassword : List Nat
  authMethod : AuthMethod
  connectionTimout : Int
  responseTimeout : Int
  sendTimeout : Int
  socketSet : Bool
  logSocketTraffic : Bool
deriving DecidableEq

/-- `Client::setServerHost` (smtp_client.cpp:197): guarded by the
Disconnected status. -/
def setServerHost (d : ClientData) (host : List Nat) : ClientData :=
  if d.status ≠ PStatus.disconnected then d else { d with serverHost := host }

/-- `Client::setServerPort` (smtp_client.cpp:211). -/
def setServerPort (d : ClientData) (port : Nat) : ClientData :=
  if d.status ≠ PStatus.disconnected then d else { d with serverPort := port }

/-- `Client::setClientHost` (smtp_client.cpp:225). -/
def setClientHost (d : ClientData) (host : List Nat) : ClientData :=
  if d.status ≠ PStatus.disconnected then d else { d with clientHost := host }

/-- `Client::setAccountUser` (smtp_client.cpp:294): updates the username
and, when the auth method is still AuthNone, switches it to AuthPlain. -/
def setAccountUser (d : ClientData) (user : List Nat) : ClientData :=
  if d.status ≠ PStatus.disconnected then d
  else
    let d2 := { d with accountUsername := user }
    if d2.authMethod = AuthMethod.authNone then { d2 with authMethod := AuthMethod.authPlain }
    else d2

/-- `Client::setAccountPassword` (smtp_client.cpp:313). -/
def setAccountPassword (d : ClientData) (password : List Nat) : ClientData :=
  if d.status ≠ PStatus.disconnected then d
  else
    let d2 := { d with accountPassword := password }
    if d2.authMethod = AuthMethod.authNone then { d2 with authMethod := AuthMethod.authPlain }
    else d2

/-- `Client::setAuthMethod` (smtp_client.cpp:332). -/
def setAuthMethod (d : ClientData) (method : AuthMethod) : ClientData :=
  if d.status ≠ PStatus.disconnected then d else { d with authMethod := method }

/-- `Client::setConnectionTimeout` (smtp_client.cpp:346). -/
def setConnectionTimeout (d : ClientData) (msec : Int) : ClientData :=
  if d.status ≠ PStatus.disconnected then d else { d with connectionTimout := msec }

/-- `Client::setResponseTimeout` (smtp_client.cpp:360). -/
def setResponseTimeout (d : ClientData) (msec : Int) : ClientData :=
  if d.status ≠ PStatus.disconnected then d else { d with responseTimeout := msec }

/-- `Client::setSendTimeout` (smtp_client.cpp:374). -/
def setSendTimeout (d : ClientData) (msec : Int) : ClientData :=
  if d.status ≠ PStatus.disconnected then d else { d with sendTimeout := msec }

/-- `Client::setSocketTrafficLogEnabled` (smtp_client.cpp:388): unlike
every other configuration setter, it carries no Disconnected guard. -/
def setSocketTrafficLogEnabled (d : ClientData) (enabled : Bool) : ClientData :=
  { d with logSocketTraffic := enabled }

/-- A concrete Connected client configuration with traffic logging off. -/
def c3client : ClientData :=
  { status := PStatus.connected
    serverHost := [104]
    serverPort := 25
    clientHost := [99]
    connectionType := ConnectionType.tcpConnection
    accountUsername := []
    accountPassword := []
    authMethod := AuthMethod.authNone
    connectionTimout := 15000
    responseTimeout := 15000
    sendTimeout := 60000
    socketSet := true
    logSocketTraffic := false }

/-- A concrete Disconnected client configuration with AuthNone. -/
def c10client : ClientData :=
  { status := PStatus.disconnected
    serverHost := [104]
    serverPort := 25
    clientHost := [99]
    connectionType := ConnectionType.tcpConnection
    accountUsername := []
    accountPassword := []
    authMethod := AuthMethod.authNone
    connectionTimout := 15000
    responseTimeout := 15000
    sendTimeout := 60000
    socketSet := true
    logSocketTraffic := false }

/-- Whether `s` starts with `pat`. -/
def startsWith : List Nat → List Nat → Bool
  | _, [] => true
  | [], _ :: _ => false
  | a :: s, b :: p => a = b && startsWith s p

/-- Scan of `QString::replace(before, after)` for a non-empty pattern
`p :: ps`: one left-to-right pass over the string; at a match the
replacement is emitted and the scan continues after the matched pattern
(the replacement text is not re-scanned by this same pass). -/
def replaceAllGo (p : Nat) (ps : List Nat) (rep : List Nat) : List Nat → List Nat
  | [] => []
  | a :: s2 =>
    if startsWith (a :: s2) (p :: ps) then
      rep ++ replaceAllGo p ps rep (s2.drop ps.length)
    else a :: replaceAllGo p ps rep s2
termination_by s => s.length
decreasing_by all_goals simp only [List.length_cons, List.length_drop]; omega

/-- `QString::replace(before, after)` on plain strings, as used by
`RTLogHandler::operator%` (rtloghandler.cpp:94): replaces every
occurrence of `pat` in `s` by `rep`. The source never passes an empty
pattern (it is `%` plus digits); an empty pattern leaves the string
unchanged here. -/
def replaceAll (s pat rep : List Nat) : List Nat :=
  match pat with
  | [] => s
  | p :: ps => replaceAllGo p ps rep s

/-- Decimal digits of `n` (`QString::number`), through a structural fuel
of `n + 1` which is always sufficient. -/
def natDigitsGo (fuel n : Nat) : List Nat :=
  match fuel with
  | 0 => []
  | fuel2 + 1 => if n < 10 then [48 + n] else natDigitsGo fuel2 (n / 10) ++ [48 + n % 10]

/-- Decimal digits of `n`. -/
def natDigits (n : Nat) : List Nat :=
  natDigitsGo (n + 1) n

/-- The placeholder pattern `'%' + QString::number(i)` of
`RTLogHandler::operator%`. -/
def pctPat (i : Nat) : List Nat :=
  37 :: natDigits i

/-- One `RTLogHandler::operator%` call (rtloghandler.cpp:94): the state
is the current message and the last replaced index; the call replaces
every occurrence of `%(index+1)` in the current message — including text
inserted by earlier calls — by the argument. -/
def rtlogPct (st : List Nat × Nat) (arg : List Nat) : List Nat × Nat :=
  (replaceAll st.1 (pctPat (st.2 + 1)) arg, st.2 + 1)

/-- A full log-message formatting: the template followed by the chain of
`%` applications in call order (`RT_DEBUG(msg) % a1 % a2 ...`). -/
def rtlogFormat (template : List Nat) (args : List (List Nat)) : List Nat :=
  (args.foldl rtlogPct (template, 0)).1

/-- Single-pass positional substitution as the specification words it:
one left-to-right scan of the template, each `%d` placeholder (single
digit, as the spec's `%1`, `%2`, …) replaced by its own argument, and
replacement text never re-scanned. Stated from the spec, to be compared
with the source-derived `rtlogFormat`. -/
def specSinglePassFormat (args : List (List Nat)) : List Nat → List Nat
  | [] => []
  | 37 :: d :: rest =>
    if 49 ≤ d ∧ d ≤ 57 ∧ d - 49 < args.length then
      args.getD (d - 49) [] ++ specSinglePassFormat args rest
    else 37 :: specSinglePassFormat args (d :: rest)
  | a :: rest => a :: specSinglePassFormat args rest

/-- No occurrence of `pat` starts within the first `n` positions of `s`. -/
def noMatchBefore (s pat : List Nat) (n : Nat) : Bool :=
  (List.range n).all (fun i => !startsWith (s.drop i) pat)

/-- Base64 value of an alphabet byte (`QByteArray::fromBase64`); invalid
bytes (including the `=` padding) carry no bits and are skipped. -/
def b64Val (c : Nat) : Option Nat :=
  if 65 ≤ c ∧ c ≤ 90 then some (c - 65)
  else if 97 ≤ c ∧ c ≤ 122 then some (c - 97 + 26)
  else if 48 ≤ c ∧ c ≤ 57 then some (c - 48 + 52)
  else if c = 43 then some 62
  else if c = 47 then some 63
  else none

/-- Bit assembly of `QByteArray::fromBase64`: 6 bits per digit, one output
byte per 8 accumulated bits. -/
def b64Assemble : List Nat → Nat → Nat → List Nat
  | [], _, _ => []
  | v :: rest, acc, nbits =>
    let acc2 := acc * 64 + v
    let nbits2 := nbits + 6
    if 8 ≤ nbits2 then
      (acc2 / 2 ^ (nbits2 - 8)) % 256 :: b64Assemble rest (acc2 % 2 ^ (nbits2 - 8)) (nbits2 - 8)
    else b64Assemble rest acc2 nbits2

/-- `QByteArray::fromBase64`. -/
def fromBase64 (s : List Nat) : List Nat :=
  b64Assemble (s.filterMap b64Val) 0 0

/-- Lowercase hex rendering of a byte string (`QByteArray::toHex`). -/
def bytesToHexLower (l : List Nat) : List Nat :=
  l.flatMap (fun b => [hexDigitLower (b / 16 % 16), hexDigitLower (b % 16)])

/-- ASCII whitespace (`QByteArray::trimmed`). -/
def isSpaceByte (b : Nat) : Bool :=
  b = 32 || (9 ≤ b && b ≤ 13)

/-- `QByteArray::trimmed`: strips whitespace from both ends. -/
def trimBytes (l : List Nat) : List Nat :=
  List.reverse (List.dropWhile isSpaceByte (List.reverse (List.dropWhile isSpaceByte l)))

/-- Observable socket events of the driver model: a write to the socket
(recording the lines still buffered for reading at that moment) and the
log record emitted for one pending line by `pn_isAllowedToSend`. -/
inductive Event where
  | write (data : List Nat) (bufferedAtWrite : List (List Nat))
  | logPending (line : List Nat)
deriving DecidableEq

/-- The socket model: `buffered` are the complete lines currently
readable (`canReadLine` / `readLine`); `incoming` are the batches of
lines that arrive on each successive `waitForReadyRead` (an empty list
means the next wait times out); `connectOk` and `encryptOk` are the
outcomes of `waitForConnected` and `waitForEncrypted`; `socketOpen`
tracks `close()`; `trace` accumulates the observable events. -/
structure Conn where
  buffered : List (List Nat)
  incoming : List (List (List Nat))
  connectOk : Bool
  encryptOk : Bool
  socketOpen : Bool
  trace : List Event
deriving DecidableEq

/-- Embedding of `pn_isAllowedToSend` (smtp_client.cpp:74): if the socket
has a readable buffered line, every pending line is read and logged and
the check fails; otherwise sending is allowed. -/
def pn_isAllowedToSend (c : Conn) : Bool × Conn :=
  if c.buffered.isEmpty then (true, c)
  else
    (false,
      { c with
        buffered := []
        trace := c.trace ++ c.buffered.map Event.logPending })

/-- Embedding of the byte-array overload of `pn_sendMessage`
(smtp_client.cpp:94): after the crosstalk check, the data plus CRLF is
written to the socket. -/
def pn_sendMessageBytes (c : Conn) (data : List Nat) : Bool × Conn :=
  match pn_isAllowedToSend c with
  | (false, c2) => (false, c2)
  | (true, c2) =>
    (true, { c2 with trace := c2.trace ++ [Event.write (data ++ [13, 10]) c2.buffered] })

/-- Embedding of the `MimeMessage` overload of `pn_sendMessage`
(smtp_client.cpp:107): after the crosstalk check the message is
serialised into a buffer; on serialisation failure nothing is written,
otherwise the buffer is written as-is (no extra CRLF). -/
def pn_sendMimeMessage (gen : Nat → List Nat) (dateStr : List Nat) (c : Conn)
    (msg : MimeMessage) (k : Nat) : Bool × Conn × Nat :=
  match pn_isAllowedToSend c with
  | (false, c2) => (false, c2, k)
  | (true, c2) =>
    match MimeMessage.writeToDev gen dateStr msg k with
    | none => (false, c2, k)
    | some (dataToSend, k2) =>
      (true, { c2 with trace := c2.trace ++ [Event.write dataToSend c2.buffered] }, k2)

/-- Result of scanning the buffered lines inside `pn_waitForResponse`:
either a terminal line was found (with the verdict and the lines still
unread) or the buffer was exhausted and the outer wait loops again. -/
inductive InnerRes where
  | found (result : Option (List Nat)) (remaining : List (List Nat))
  | needMore

/-- The inner `while canReadLine` loop of `pn_waitForResponse`
(smtp_client.cpp:145): each line is read and trimmed; a line whose fourth
byte is a space is terminal — its three-byte code must equal the expected
code, and the rest of the line is the message body; continuation lines
are discarded. -/
def wfrScan (expected : List Nat) : List (List Nat) → InnerRes
  | [] => InnerRes.needMore
  | line :: more =>
    let t := trimBytes line
    let code := t.take 3
    let sep := (t.drop 3).take 1
    if sep = [32] then
      if code ≠ expected then InnerRes.found none more
      else InnerRes.found (some (t.drop 4)) more
    else wfrScan expected more

/-- The outer `while (true)` loop of `pn_waitForResponse`
(smtp_client.cpp:140): each iteration first waits for new data
(`waitForReadyRead`, modelled as consuming the next `incoming` batch; an
exhausted schedule is the response timeout) and then scans the buffered
lines. Returns the verdict, the remaining buffered lines and the
remaining schedule. -/
def wfrOuter (expected : List Nat) : List (List Nat) → List (List (List Nat)) →
    Option (List Nat) × List (List Nat) × List (List (List Nat))
  | buffered, [] => (none, buffered, [])
  | buffered, batch :: rest =>
    match wfrScan expected (buffered ++ batch) with
    | InnerRes.found r remaining => (r, remaining, rest)
    | InnerRes.needMore => wfrOuter expected [] rest

/-- Embedding of `pn_waitForResponse` (smtp_client.cpp:133). -/
def pn_waitForResponse (expected : List Nat) (c : Conn) : Option (List Nat) × Conn :=
  let r := wfrOuter expected c.buffered c.incoming
  (r.1, { c with buffered := r.2.1, incoming := r.2.2 })

/-- Embedding of `pn_sendAndWaitFor` (smtp_client.cpp:177). -/
def pn_sendAndWaitFor (c : Conn) (dataToSend expectedResCode : List Nat) : Bool × Conn :=
  match pn_sendMessageBytes c dataToSend with
  | (false, c2) => (false, c2)
  | (true, c2) =>
    match pn_waitForResponse expectedResCode c2 with
    | (none, c3) => (false, c3)
    | (some _, c3) => (true, c3)

/-- Embedding of `pn_closeAndFail` (smtp_client.cpp:53) at the result
shape of `connectToServer`: status becomes Disconnected and the socket is
closed. -/
def pn_closeAndFailConnect (cd : ClientData) (c : Conn) : Bool × ClientData × Conn :=
  (false, { cd with status := PStatus.disconnected }, { c with socketOpen := false })

/-- The STARTTLS upgrade step of `Client::connectToServer`
(smtp_client.cpp:433): only for TLS connections — STARTTLS expecting 220,
the encryption handshake, then a second EHLO expecting 250. Every failure
is closed by the caller. -/
def connectStepTls (cd : ClientData) (c : Conn) : Bool × Conn :=
  if cd.connectionType ≠ ConnectionType.tlsConnection then (true, c)
  else
    match pn_sendAndWaitFor c (ascii "STARTTLS") (ascii "220") with
    | (false, c1) => (false, c1)
    | (true, c1) =>
      if ¬c1.encryptOk then (false, c1)
      else pn_sendAndWaitFor c1 (ascii "EHLO " ++ latin1Str cd.clientHost) (ascii "250")

/-- The authentication step of `Client::connectToServer`
(smtp_client.cpp:457): AUTH PLAIN, AUTH LOGIN or AUTH CRAM-MD5 according
to the configured method; `mac` is the external HMAC-MD5 primitive. -/
def connectStepAuth (mac : List Nat → List Nat → List Nat) (cd : ClientData) (c : Conn) :
    Bool × Conn :=
  match cd.authMethod with
  | AuthMethod.authNone => (true, c)
  | AuthMethod.authPlain =>
    pn_sendAndWaitFor c
      (ascii "AUTH PLAIN "
        ++ toBase64 (latin1Str ([0] ++ cd.accountUsername ++ [0] ++ cd.accountPassword)))
      (ascii "235")
  | AuthMethod.authLogin =>
    match pn_sendAndWaitFor c (ascii "AUTH LOGIN") (ascii "334") with
    | (false, c1) => (false, c1)
    | (true, c1) =>
      match pn_sendAndWaitFor c1 (toBase64 (latin1Str cd.accountUsername)) (ascii "334") with
      | (false, c2) => (false, c2)
      | (true, c2) =>
        pn_sendAndWaitFor c2 (toBase64 (strToUtf8 cd.accountPassword)) (ascii "235")
  | AuthMethod.authCramMd5 =>
    match pn_sendMessageBytes c (ascii "AUTH CRAM-MD5") with
    | (false, c1) => (false, c1)
    | (true, c1) =>
      match pn_waitForResponse (ascii "334") c1 with
      | (none, c2) => (false, c2)
      | (some msgBody, c2) =>
        let authToken := latin1Str cd.accountUsername ++ [32]
          ++ bytesToHexLower (mac (latin1Str cd.accountPassword) (fromBase64 msgBody))
        pn_sendAndWaitFor c2 (toBase64 authToken) (ascii "235")

/-- Embedding of `Client::connectToServer` (smtp_client.cpp:393):
pre-connect configuration checks (which fail without closing), the TCP
connect wait, then greeting 220, EHLO 250, the optional STARTTLS upgrade
and the optional authentication — every failure past the connect closing
the socket and resetting the status — and finally `status = Connected`. -/
def connectToServer (mac : List Nat → List Nat → List Nat) (cd : ClientData) (c : Conn) :
    Bool × ClientData × Conn :=
  if cd.status ≠ PStatus.disconnected then (false, cd, c)
  else if cd.socketSet = false then (false, cd, c)
  else if cd.serverHost.isEmpty ∨ cd.serverPort = 0 then (false, cd, c)
  else if cd.clientHost.isEmpty then (false, cd, c)
  else if cd.authMethod ≠ AuthMethod.authNone
      ∧ (cd.accountUsername.isEmpty ∨ cd.accountPassword.isEmpty) then (false, cd, c)
  else if c.connectOk = false then (false, cd, c)
  else
    match pn_waitForResponse (ascii "220") c with
    | (none, c1) => pn_closeAndFailConnect cd c1
    | (some _, c1) =>
      match pn_sendAndWaitFor c1 (ascii "EHLO " ++ latin1Str cd.clientHost) (ascii "250") with
      | (false, c2) => pn_closeAndFailConnect cd c2
      | (true, c2) =>
        match connectStepTls cd c2 with
        | (false, c3) => pn_closeAndFailConnect cd c3
        | (true, c3) =>
          match connectStepAuth mac cd c3 with
          | (false, c4) => pn_closeAndFailConnect cd c4
          | (true, c4) => (true, { cd with status := PStatus.connected }, c4)

/-- `pn_closeAndFail` at the result shape of `sendMessage`. -/
def pn_closeAndFailSend (cd : ClientData) (c : Conn) (k : Nat) :
    Bool × ClientData × Conn × Nat :=
  (false, { cd with status := PStatus.disconnected }, { c with socketOpen := false }, k)

/-- The wire form `RCPT TO:<addr>` of one recipient (smtp_client.cpp:527). -/
def rcptCommand (a : EmailAddress) : List Nat :=
  ascii "RCPT TO:<" ++ latin1Str a.email ++ [62]

/-- The per-recipient loops of `Client::sendMessage` (smtp_client.cpp:525
and 532): each command is sent expecting 250, stopping at the first
failure. -/
def rcptLoop (c : Conn) : List (List Nat) → Bool × Conn
  | [] => (true, c)
  | cmd :: rest =>
    match pn_sendAndWaitFor c cmd (ascii "250") with
    | (false, c1) => (false, c1)
    | (true, c1) => rcptLoop c1 rest

/-- Embedding of `Client::sendMessage` (smtp_client.cpp:511): message
validity and Connected checks (failing without touching the connection),
then MAIL FROM, the RCPT TO loops, DATA, the serialised message, and the
final 250 — any failure of these closing the socket and resetting the
status to Disconnected. -/
def sendMessage (gen : Nat → List Nat) (dateStr : List Nat) (cd : ClientData) (c : Conn)
    (msg : MimeMessage) (k : Nat) : Bool × ClientData × Conn × Nat :=
  if msg.isValid = false then (false, cd, c, k)
  else if cd.status ≠ PStatus.connected then (false, cd, c, k)
  else
    match pn_sendAndWaitFor c
        (ascii "MAIL FROM:<" ++ latin1Str msg.senderAddress.email ++ [62]) (ascii "250") with
    | (false, c1) => pn_closeAndFailSend cd c1 k
    | (true, c1) =>
      match rcptLoop c1 (msg.toAddresses.map rcptCommand) with
      | (false, c2) => pn_closeAndFailSend cd c2 k
      | (true, c2) =>
        match rcptLoop c2 (msg.ccAddresses.map rcptCommand) with
        | (false, c3) => pn_closeAndFailSend cd c3 k
        | (true, c3) =>
          match pn_sendAndWaitFor c3 (ascii "DATA") (ascii "354") with
          | (false, c4) => pn_closeAndFailSend cd c4 k
          | (true, c4) =>
            match pn_sendMimeMessage gen dateStr c4 msg k with
            | (false, c5, k5) => pn_closeAndFailSend cd c5 k5
            | (true, c5, k5) =>
              match pn_waitForResponse (ascii "250") c5 with
              | (none, c6) => pn_closeAndFailSend cd c6 k5
              | (some _, c6) => (true, cd, c6, k5)

/-- An event respects the no-crosstalk invariant when it is a log record,
or a write performed while no line was buffered for reading. -/
def eventOk : Event → Bool
  | Event.write _ buf => buf.isEmpty
  | Event.logPending _ => true

/-- The no-crosstalk trace property: every write event recorded in the
trace happened while no line was buffered for reading. -/
def writesOk (tr : List Event) : Bool :=
  tr.all eventOk

/-- The state `pn_isAllowedToSend` leaves behind after finding and
logging pending lines: the buffer is drained and one log record per
pending line was emitted. -/
def loggedConn (c : Conn) : Conn :=
  { c with buffered := [], trace := c.trace ++ c.buffered.map Event.logPending }

/-- A socket with one line buffered for reading and a fresh trace. -/
def c2connA : Conn :=
  { buffered := [[120]], incoming := [], connectOk := true, encryptOk := true,
    socketOpen := true, trace := [] }

/-- A socket with nothing buffered, an exhausted schedule and a fresh
trace. -/
def c2connB : Conn :=
  { buffered := [], incoming := [], connectOk := true, encryptOk := true,
    socketOpen := true, trace := [] }

/-- `c10client` in the Connected state. -/
def c8client : ClientData :=
  { c10client with status := PStatus.connected }

/-!  Theorems. -/

theorem pn_needEscape_eq_not_alnum :
    ∀ b < 256, pn_needEscapeForQuotedPrintableEncoding b = !isAlnumByte b := by
  decide

theorem qpEncodeBytes_eq_flatMap (bs : List Nat) (h : ∀ b ∈ bs, b < 256) :
    qpEncodeBytes bs = bs.flatMap specQpByte := by
  induction bs with
  | nil => rfl
  | cons b rest ih =>
    have hb : b < 256 := h b (List.mem_cons_self b rest)
    have hrest : ∀ x ∈ rest, x < 256 := fun x hx => h x (List.mem_cons_of_mem b hx)
    have hesc := pn_needEscape_eq_not_alnum b hb
    simp only [qpEncodeBytes, List.flatMap_cons, ih hrest, specQpByte, hesc]
    cases isAlnumByte b <;> simp

theorem utf8Encode_lt_256 (c : Nat) (hc : c < 1114112) :
    ∀ b ∈ utf8Encode c, b < 256 := by
  intro b hb
  unfold utf8Encode at hb
  split at hb
  · simp at hb; omega
  · split at hb
    · have h1 : c / 64 < 32 := by omega
      have h2 : c % 64 < 64 := Nat.mod_lt _ (by omega)
      simp at hb
      rcases hb with h | h <;> omega
    · split at hb
      · have h1 : c / 4096 < 16 := by omega
        have h2 : c / 64 % 64 < 64 := Nat.mod_lt _ (by omega)
        have h3 : c % 64 < 64 := Nat.mod_lt _ (by omega)
        simp at hb
        rcases hb with h | h | h <;> omega
      · have h1 : c / 262144 < 5 := by omega
        have h2 : c / 4096 % 64 < 64 := Nat.mod_lt _ (by omega)
        have h3 : c / 64 % 64 < 64 := Nat.mod_lt _ (by omega)
        have h4 : c % 64 < 64 := Nat.mod_lt _ (by omega)
        simp at hb
        rcases hb with h | h | h | h <;> omega

theorem strToUtf8_lt_256 (s : List Nat) (h : ∀ c ∈ s, c < 1114112) :
    ∀ b ∈ strToUtf8 s, b < 256 := by
  intro b hb
  simp only [strToUtf8, List.mem_flatMap] at hb
  obtain ⟨c, hc, hbc⟩ := hb
  exact utf8Encode_lt_256 c (h c hc) b hbc

/-- C4. `encodeQuotedPrintable` processes the UTF-8 bytes of its input
left-to-right, passing each byte in `[0-9A-Za-z]` through unchanged and
emitting every other byte as `=` followed by its two uppercase hex digits;
in particular the input "a=b\n" (code points 97, 61, 98, 10) encodes to
"a=3Db=0A". -/
theorem encodeQuotedPrintable_spec (s : List Nat) (h : ∀ c ∈ s, c < 1114112) :
    encodeQuotedPrintable s = (strToUtf8 s).flatMap specQpByte ∧
    encodeQuotedPrintable [97, 61, 98, 10] = ascii "a=3Db=0A" := by
  constructor
  · rcases s with _ | ⟨c, rest⟩
    · rfl
    · have he : encodeQuotedPrintable (c :: rest) = qpEncodeBytes (strToUtf8 (c :: rest)) := by
        simp [encodeQuotedPrintable]
      rw [he]
      exact qpEncodeBytes_eq_flatMap _ (strToUtf8_lt_256 _ h)
  · decide

theorem encodeQuotedPrintable_spec_witness :
    (∀ c ∈ [97, 61, 98, 10], c < 1114112) ∧
    (encodeQuotedPrintable [97, 61, 98, 10] =
      (strToUtf8 [97, 61, 98, 10]).flatMap specQpByte ∧
     encodeQuotedPrintable [97, 61, 98, 10] = ascii "a=3Db=0A") :=
  ⟨by decide, encodeQuotedPrintable_spec [97, 61, 98, 10] (by decide)⟩

theorem isHexUp_hexDigitUpper : ∀ n < 16, isHexUpDigit (hexDigitUpper n) = true := by
  decide

theorem qpunits_qpEncodeBytes (bs : List Nat) (h : ∀ b ∈ bs, b < 256) :
    QPunits (qpEncodeBytes bs) := by
  induction bs with
  | nil => exact QPunits.nil
  | cons b rest ih =>
    have hb : b < 256 := h b (List.mem_cons_self b rest)
    have hrest : ∀ x ∈ rest, x < 256 := fun x hx => h x (List.mem_cons_of_mem b hx)
    have hesc := pn_needEscape_eq_not_alnum b hb
    simp only [qpEncodeBytes, hesc]
    cases halnum : isAlnumByte b with
    | true =>
      simp only [halnum, Bool.not_true, Bool.false_eq_true, if_false]
      exact QPunits.alnum b _ halnum (ih hrest)
    | false =>
      simp only [halnum, Bool.not_false, if_true, byteHexUpper]
      exact QPunits.esc _ _ _
        (isHexUp_hexDigitUpper _ (Nat.mod_lt _ (by omega)))
        (isHexUp_hexDigitUpper _ (Nat.mod_lt _ (by omega)))
        (ih hrest)

theorem qpunits_encodeQuotedPrintable (s : List Nat) (h : ∀ c ∈ s, c < 1114112) :
    QPunits (encodeQuotedPrintable s) := by
  unfold encodeQuotedPrintable
  split
  · exact QPunits.nil
  · exact qpunits_qpEncodeBytes _ (strToUtf8_lt_256 _ h)

theorem splitCRLF_ne_nil (l : List Nat) : splitCRLF l ≠ [] := by
  rw [splitCRLF.eq_def]
  rcases l with _ | ⟨b, _ | ⟨c, rest⟩⟩
  · simp
  · simp
  · by_cases h : b = 13 ∧ c = 10
    · simp [h]
    · simp only [if_neg h]
      rcases hs : splitCRLF (c :: rest) with _ | ⟨f, r⟩
      · simp [hs]
      · simp [hs]

theorem splitCRLF_crlf (t : List Nat) : splitCRLF (13 :: 10 :: t) = [] :: splitCRLF t := by
  simp [splitCRLF]

theorem splitCRLF_cons (b : Nat) (t : List Nat) (hb : b ≠ 13) :
    ∃ f r, splitCRLF t = f :: r ∧ splitCRLF (b :: t) = (b :: f) :: r := by
  rcases t with _ | ⟨c, rest⟩
  · exact ⟨[], [], rfl, rfl⟩
  · obtain ⟨f, r, hfr⟩ := List.exists_cons_of_ne_nil (splitCRLF_ne_nil (c :: rest))
    refine ⟨f, r, hfr, ?_⟩
    have hcond : ¬(b = 13 ∧ c = 10) := fun hc => hb hc.1
    simp [splitCRLF, hcond, hfr]

theorem lineOk_cons_alnum (b : Nat) (l : List Nat) (hb : isAlnumByte b = true) :
    lineOk (b :: l) = lineOk l := by
  have hb61 : b ≠ 61 := by
    simp only [isAlnumByte, Bool.or_eq_true, Bool.and_eq_true, decide_eq_true_eq] at hb
    omega
  rw [lineOk.eq_def]
  simp only [if_neg hb61, hb, Bool.true_and]

theorem lineOk_cons_esc (h1 h2 : Nat) (l : List Nat)
    (hh1 : isHexUpDigit h1 = true) (hh2 : isHexUpDigit h2 = true) :
    lineOk (61 :: h1 :: h2 :: l) = lineOk l := by
  simp [lineOk, hh1, hh2]

theorem alnum_ne_13 (b : Nat) (hb : isAlnumByte b = true) : b ≠ 13 := by
  simp only [isAlnumByte, Bool.or_eq_true, Bool.and_eq_true, decide_eq_true_eq] at hb
  omega

theorem hexUp_ne_13 (b : Nat) (hb : isHexUpDigit b = true) : b ≠ 13 := by
  simp only [isHexUpDigit, Bool.or_eq_true, Bool.and_eq_true, decide_eq_true_eq] at hb
  omega

theorem qpFoldGo_lines (maxSrc : Int) (h3 : 3 ≤ maxSrc) :
    ∀ l, QPunits l → ∀ lls : Int, 0 ≤ lls → lls ≤ maxSrc →
    ∃ f r, splitCRLF (qpFoldGo maxSrc l lls) = f :: r ∧
      lls + f.length ≤ maxSrc + 1 ∧ lineOk f = true ∧
      ∀ li ∈ r, (li.length : Int) ≤ maxSrc + 1 ∧ lineOk li = true := by
  intro l hl
  induction hl with
  | nil =>
    intro lls h0 hmax
    refine ⟨[], [], rfl, by simp only [List.length_nil]; push_cast; omega, rfl, by simp⟩
  | alnum b rest hb hrest ih =>
    intro lls h0 hmax
    have hb61 : b ≠ 61 := by
      simp only [isAlnumByte, Bool.or_eq_true, Bool.and_eq_true, decide_eq_true_eq] at hb
      omega
    have hb13 : b ≠ 13 := alnum_ne_13 b hb
    rw [qpFoldGo.eq_def]
    simp only [if_neg hb61]
    by_cases hover : lls + 1 > maxSrc
    · rw [if_pos hover]
      obtain ⟨f, r, hsplit, hflen, hfok, hrok⟩ := ih 1 (by omega) (by omega)
      obtain ⟨f2, r2, hsplit2, heq2⟩ := splitCRLF_cons b (qpFoldGo maxSrc rest 1) hb13
      rw [hsplit] at hsplit2
      injection hsplit2 with hf2 hr2
      subst hf2; subst hr2
      have hpeel : splitCRLF (61 :: 13 :: 10 :: b :: qpFoldGo maxSrc rest 1) =
          [61] :: (b :: f) :: r := by
        have hc := splitCRLF_crlf (b :: qpFoldGo maxSrc rest 1)
        rw [heq2] at hc
        obtain ⟨f3, r3, hsplit3, heq3⟩ :=
          splitCRLF_cons 61 (13 :: 10 :: b :: qpFoldGo maxSrc rest 1) (by omega)
        rw [hc] at hsplit3
        injection hsplit3 with hf3 hr3
        subst hf3; subst hr3
        simpa using heq3
      refine ⟨[61], (b :: f) :: r, hpeel, by simpa using hmax, rfl, ?_⟩
      intro li hli
      rcases List.mem_cons.mp hli with hli | hli
      · subst hli
        constructor
        · simp only [List.length_cons]
          push_cast
          omega
        · rw [lineOk_cons_alnum b f hb]; exact hfok
      · exact hrok li hli
    · rw [if_neg hover]
      obtain ⟨f, r, hsplit, hflen, hfok, hrok⟩ := ih (lls + 1) (by omega) (by omega)
      obtain ⟨f2, r2, hsplit2, heq2⟩ := splitCRLF_cons b (qpFoldGo maxSrc rest (lls + 1)) hb13
      rw [hsplit] at hsplit2
      injection hsplit2 with hf2 hr2
      subst hf2; subst hr2
      refine ⟨b :: f, r, heq2, ?_, ?_, hrok⟩
      · simp only [List.length_cons]
        push_cast
        omega
      · rw [lineOk_cons_alnum b f hb]; exact hfok
  | esc h1 h2 rest hh1 hh2 hrest ih =>
    intro lls h0 hmax
    have hh1a : h1 ≠ 13 := hexUp_ne_13 h1 hh1
    have hh2a : h2 ≠ 13 := hexUp_ne_13 h2 hh2
    rw [qpFoldGo.eq_2]
    simp only [eq_self_iff_true, if_true]
    by_cases hover : lls + 3 > maxSrc
    · rw [if_pos hover]
      obtain ⟨f, r, hsplit, hflen, hfok, hrok⟩ := ih 3 (by omega) (by omega)
      obtain ⟨fa, ra, hsa, hea⟩ := splitCRLF_cons h2 (qpFoldGo maxSrc rest 3) hh2a
      rw [hsplit] at hsa
      injection hsa with hfa hra
      subst hfa; subst hra
      obtain ⟨fb, rb, hsb, heb⟩ := splitCRLF_cons h1 (h2 :: qpFoldGo maxSrc rest 3) hh1a
      rw [hea] at hsb
      injection hsb with hfb hrb
      subst hfb; subst hrb
      obtain ⟨fc, rc, hsc, hec⟩ :=
        splitCRLF_cons 61 (h1 :: h2 :: qpFoldGo maxSrc rest 3) (by omega)
      rw [heb] at hsc
      injection hsc with hfc hrc
      subst hfc; subst hrc
      have hpeel : splitCRLF (61 :: 13 :: 10 :: 61 :: h1 :: h2 :: qpFoldGo maxSrc rest 3) =
          [61] :: (61 :: h1 :: h2 :: f) :: r := by
        have hc := splitCRLF_crlf (61 :: h1 :: h2 :: qpFoldGo maxSrc rest 3)
        rw [hec] at hc
        obtain ⟨fd, rd, hsd, hed⟩ :=
          splitCRLF_cons 61 (13 :: 10 :: 61 :: h1 :: h2 :: qpFoldGo maxSrc rest 3) (by omega)
        rw [hc] at hsd
        injection hsd with hfd hrd
        subst hfd; subst hrd
        simpa using hed
      refine ⟨[61], (61 :: h1 :: h2 :: f) :: r, hpeel, by simpa using hmax, rfl, ?_⟩
      intro li hli
      rcases List.mem_cons.mp hli with hli | hli
      · subst hli
        constructor
        · simp only [List.length_cons]
          push_cast
          omega
        · rw [lineOk_cons_esc h1 h2 f hh1 hh2]; exact hfok
      · exact hrok li hli
    · rw [if_neg hover]
      obtain ⟨f, r, hsplit, hflen, hfok, hrok⟩ := ih (lls + 3) (by omega) (by omega)
      obtain ⟨fa, ra, hsa, hea⟩ := splitCRLF_cons h2 (qpFoldGo maxSrc rest (lls + 3)) hh2a
      rw [hsplit] at hsa
      injection hsa with hfa hra
      subst hfa; subst hra
      obtain ⟨fb, rb, hsb, heb⟩ :=
        splitCRLF_cons h1 (h2 :: qpFoldGo maxSrc rest (lls + 3)) hh1a
      rw [hea] at hsb
      injection hsb with hfb hrb
      subst hfb; subst hrb
      obtain ⟨fc, rc, hsc, hec⟩ :=
        splitCRLF_cons 61 (h1 :: h2 :: qpFoldGo maxSrc rest (lls + 3)) (by omega)
      rw [heb] at hsc
      injection hsc with hfc hrc
      subst hfc; subst hrc
      refine ⟨61 :: h1 :: h2 :: f, r, hec, ?_, ?_, hrok⟩
      · simp only [List.length_cons]
        push_cast
        omega
      · rw [lineOk_cons_esc h1 h2 f hh1 hh2]; exact hfok

/-- C5 counterexample. With `max_line = 2` (inside the claimed range
`(0, 998]`) and the quoted-printable encoding of the single byte 10
(the string "\n"), the folded output contains the line "=0A" of length 3,
exceeding `max_line`. -/
theorem formatQP_maxline2_counterexample :
    (0 < (2 : Int) ∧ (2 : Int) ≤ 998) ∧
    [61, 48, 65] ∈ splitCRLF (formatQuotedPrintableIntoLines (encodeQuotedPrintable [10]) 2) ∧
    ¬ (([61, 48, 65] : List Nat).length : Int) ≤ 2 := by
  refine ⟨by decide, ?_, by decide⟩
  decide

/-- C5 (amended). For quoted-printable encoded input and any
`max_line ∈ [4, 998]` (so that a full three-byte `=HH` unit fits within
the `max_line - 1` budget of an empty line), every line of the folded
output is at most `max_line` bytes long excluding CRLF, and no `=HH`
escape is split across lines (every line parses into whole units plus an
optional trailing soft-break `=`, which is what `lineOk` checks). For
`max_line < 4` the bound fails, see the counterexample. -/
theorem formatQuotedPrintableIntoLines_lines (s : List Nat) (maxLine : Int)
    (hs : ∀ c ∈ s, c < 1114112) (h4 : 4 ≤ maxLine) (h998 : maxLine ≤ 998) :
    ∀ line ∈ splitCRLF (formatQuotedPrintableIntoLines (encodeQuotedPrintable s) maxLine),
      (line.length : Int) ≤ maxLine ∧ lineOk line = true := by
  intro line hline
  have hunits := qpunits_encodeQuotedPrintable s hs
  unfold formatQuotedPrintableIntoLines at hline
  rw [if_neg (by omega)] at hline
  by_cases hemp : (encodeQuotedPrintable s).isEmpty
  · rw [if_pos hemp] at hline
    rw [List.isEmpty_iff.mp hemp] at hline
    simp only [splitCRLF, List.mem_singleton] at hline
    subst hline
    exact ⟨by simp; omega, rfl⟩
  · rw [if_neg hemp] at hline
    obtain ⟨f, r, hsplit, hflen, hfok, hrok⟩ :=
      qpFoldGo_lines (maxLine - 1) (by omega) _ hunits 0 (by omega) (by omega)
    rw [hsplit] at hline
    rcases List.mem_cons.mp hline with hline | hline
    · subst hline
      exact ⟨by omega, hfok⟩
    · obtain ⟨hlen, hok⟩ := hrok line hline
      exact ⟨by omega, hok⟩

theorem formatQuotedPrintableIntoLines_lines_witness :
    (∀ c ∈ [97, 10], c < 1114112) ∧ (4 : Int) ≤ 76 ∧ (76 : Int) ≤ 998 ∧
    (∀ line ∈ splitCRLF (formatQuotedPrintableIntoLines (encodeQuotedPrintable [97, 10]) 76),
      (line.length : Int) ≤ 76 ∧ lineOk line = true) :=
  ⟨by decide, by decide, by decide,
    formatQuotedPrintableIntoLines_lines [97, 10] 76 (by decide) (by decide) (by decide)⟩

theorem foldl_max_init_le (ws : List (List Nat)) :
    ∀ init : Nat, init ≤ ws.foldl (fun m w => max m w.length) init := by
  induction ws with
  | nil => intro init; simp
  | cons a rest ih =>
    intro init
    calc init ≤ max init a.length := Nat.le_max_left _ _
    _ ≤ rest.foldl (fun m w => max m w.length) (max init a.length) := ih _

theorem mem_le_foldl_max (ws : List (List Nat)) :
    ∀ init : Nat, ∀ w ∈ ws, w.length ≤ ws.foldl (fun m w => max m w.length) init := by
  induction ws with
  | nil => intro init w hw; simp at hw
  | cons a rest ih =>
    intro init w hw
    rcases List.mem_cons.mp hw with hw | hw
    · subst hw
      calc w.length ≤ max init w.length := Nat.le_max_right _ _
      _ ≤ rest.foldl (fun m w => max m w.length) (max init w.length) := foldl_max_init_le _ _
    · exact ih _ w hw

theorem le_longestWordSize (ws : List (List Nat)) (w : List Nat) (hw : w ∈ ws) :
    w.length ≤ longestWordSize ws :=
  mem_le_foldl_max ws 0 w hw

theorem chunksGo_len (n : Nat) :
    ∀ k, ∀ l : List Nat, l.length ≤ k →
      ∀ c ∈ chunksGo n l, c.length ≤ max n 1 ∧ c ≠ [] := by
  intro k
  induction k with
  | zero =>
    intro l hl c hc
    have : l = [] := List.eq_nil_of_length_eq_zero (by omega)
    subst this
    rw [chunksGo.eq_def] at hc
    simp at hc
  | succ k ih =>
    intro l hl c hc
    rcases l with _ | ⟨a, t⟩
    · rw [chunksGo.eq_def] at hc
      simp at hc
    · rw [chunksGo.eq_def] at hc
      simp only [List.mem_cons] at hc
      rcases hc with hc | hc
      · subst hc
        constructor
        · have := List.length_take_le (max n 1) (a :: t)
          omega
        · apply List.ne_nil_of_length_pos
          rw [List.length_take]
          simp only [List.length_cons]
          omega
      · apply ih ((a :: t).drop (max n 1)) _ c hc
        rw [List.length_drop]
        simp only [List.length_cons] at hl ⊢
        omega

theorem splitChunks_len_one (t : List Nat) (ht : t ≠ []) :
    ∀ c ∈ pn_splitTextIntoChunks t (1 : Int), c.length = 1 := by
  intro c hc
  unfold pn_splitTextIntoChunks at hc
  rw [if_neg (by simpa using ht)] at hc
  by_cases hlen : (1 : Int) ≤ 0 ∨ (t.length : Int) ≤ 1
  · rw [if_pos hlen] at hc
    simp only [List.mem_singleton] at hc
    subst hc
    have h1 : 1 ≤ c.length := List.length_pos.mpr ht
    rcases hlen with h | h
    · omega
    · have : c.length ≤ 1 := by exact_mod_cast h
      omega
  · rw [if_neg hlen] at hc
    obtain ⟨hle, hne⟩ := chunksGo_len (Int.toNat 1) t.length t (le_refl _) c hc
    have hle1 : c.length ≤ 1 := by simpa using hle
    have hpos : 0 < c.length := List.length_pos.mpr hne
    omega

theorem encodeMimeWordQloop_spec (t : List Nat) (mws : Int) :
    ∀ n, 1 ≤ n → ∃ n2, 1 ≤ n2 ∧ (∃ k, n2 = ceilHalf^[k] n) ∧
      encodeMimeWordQloop t mws n = List.intercalate (ascii "\r\n ") (wordsQ t n2) ∧
      ((∀ w ∈ wordsQ t n2, (w.length : Int) ≤ mws) ∨ n2 = 1) := by
  intro n
  induction n using Nat.strong_induction_on with
  | _ n ih =>
    intro h1
    rw [encodeMimeWordQloop]
    by_cases hcond : (longestWordSize (wordsQ t n) : Int) ≤ mws ∨ n ≤ 1
    · rw [if_pos hcond]
      refine ⟨n, h1, ⟨0, rfl⟩, rfl, ?_⟩
      rcases hcond with hc | hc
      · left
        intro w hw
        have := le_longestWordSize (wordsQ t n) w hw
        omega
      · right; omega
    · rw [if_neg hcond]
      push_neg at hcond
      obtain ⟨hlong, h2⟩ := hcond
      obtain ⟨n2, hn2a, ⟨k, hk⟩, heq, hdisj⟩ :=
        ih (ceilHalf n) (by simp only [ceilHalf]; omega) (by simp only [ceilHalf]; omega)
      refine ⟨n2, hn2a, ⟨k + 1, ?_⟩, heq, hdisj⟩
      rw [Function.iterate_succ_apply]
      exact hk

theorem encodeMimeWordBloop_spec (t : List Nat) (mws : Int) :
    ∀ n, 1 ≤ n → ∃ n2, 1 ≤ n2 ∧ (∃ k, n2 = ceilHalf^[k] n) ∧
      encodeMimeWordBloop t mws n = List.intercalate (ascii "\r\n ") (wordsB t n2) ∧
      ((∀ w ∈ wordsB t n2, (w.length : Int) ≤ mws) ∨ n2 = 1) := by
  intro n
  induction n using Nat.strong_induction_on with
  | _ n ih =>
    intro h1
    rw [encodeMimeWordBloop]
    by_cases hcond : (longestWordSize (wordsB t n) : Int) ≤ mws ∨ n ≤ 1
    · rw [if_pos hcond]
      refine ⟨n, h1, ⟨0, rfl⟩, rfl, ?_⟩
      rcases hcond with hc | hc
      · left
        intro w hw
        have := le_longestWordSize (wordsB t n) w hw
        omega
      · right; omega
    · rw [if_neg hcond]
      push_neg at hcond
      obtain ⟨hlong, h2⟩ := hcond
      obtain ⟨n2, hn2a, ⟨k, hk⟩, heq, hdisj⟩ :=
        ih (ceilHalf n) (by simp only [ceilHalf]; omega) (by simp only [ceilHalf]; omega)
      refine ⟨n2, hn2a, ⟨k + 1, ?_⟩, heq, hdisj⟩
      rw [Function.iterate_succ_apply]
      exact hk

/-- C6. For non-empty input both `encodeMimeWordQ` and `encodeMimeWordB`
terminate (they are total functions here) in some iteration whose chunk
size `n` is reached from the input length by repeatedly taking the
ceiling of half (`n ← ⌈n/2⌉`); the output joins the per-chunk encoded
words with the three bytes CRLF-space; and either every emitted word is
at most `max_word_size` bytes or the per-chunk input length has reached 1
(every chunk is then a single character, emitted even if oversize). -/
theorem encodeMimeWord_halving (t : List Nat) (mws : Int) (ht : t ≠ []) :
    (∃ n, 1 ≤ n ∧ (∃ k, n = ceilHalf^[k] t.length) ∧
      encodeMimeWordQ t mws = List.intercalate (ascii "\r\n ") (wordsQ t n) ∧
      ((∀ w ∈ wordsQ t n, (w.length : Int) ≤ mws) ∨
        ∀ c ∈ pn_splitTextIntoChunks t (n : Int), c.length = 1)) ∧
    (∃ n, 1 ≤ n ∧ (∃ k, n = ceilHalf^[k] t.length) ∧
      encodeMimeWordB t mws = List.intercalate (ascii "\r\n ") (wordsB t n) ∧
      ((∀ w ∈ wordsB t n, (w.length : Int) ≤ mws) ∨
        ∀ c ∈ pn_splitTextIntoChunks t (n : Int), c.length = 1)) := by
  have hne : ¬ t.isEmpty := by simpa using ht
  have hlen : 1 ≤ t.length := List.length_pos.mpr ht
  constructor
  · obtain ⟨n2, h1, hreach, heq, hdisj⟩ := encodeMimeWordQloop_spec t mws t.length hlen
    refine ⟨n2, h1, hreach, ?_, ?_⟩
    · rw [encodeMimeWordQ, if_neg hne]; exact heq
    · rcases hdisj with h | h
      · exact Or.inl h
      · subst h
        exact Or.inr (splitChunks_len_one t ht)
  · obtain ⟨n2, h1, hreach, heq, hdisj⟩ := encodeMimeWordBloop_spec t mws t.length hlen
    refine ⟨n2, h1, hreach, ?_, ?_⟩
    · rw [encodeMimeWordB, if_neg hne]; exact heq
    · rcases hdisj with h | h
      · exact Or.inl h
      · subst h
        exact Or.inr (splitChunks_len_one t ht)

theorem encodeMimeWord_halving_witness :
    (∃ n, 1 ≤ n ∧ (∃ k, n = ceilHalf^[k] ([97] : List Nat).length) ∧
      encodeMimeWordQ [97] 60 = List.intercalate (ascii "\r\n ") (wordsQ [97] n) ∧
      ((∀ w ∈ wordsQ [97] n, (w.length : Int) ≤ 60) ∨
        ∀ c ∈ pn_splitTextIntoChunks [97] ((n : Nat) : Int), c.length = 1)) ∧
    (∃ n, 1 ≤ n ∧ (∃ k, n = ceilHalf^[k] ([97] : List Nat).length) ∧
      encodeMimeWordB [97] 60 = List.intercalate (ascii "\r\n ") (wordsB [97] n) ∧
      ((∀ w ∈ wordsB [97] n, (w.length : Int) ≤ 60) ∨
        ∀ c ∈ pn_splitTextIntoChunks [97] ((n : Nat) : Int), c.length = 1)) :=
  encodeMimeWord_halving [97] 60 (by decide)

/-- C7. Serialising a `MimeMultiPartMixed` whose only child is `p`
produces exactly the byte stream and result of serialising `p` alone (no
multipart headers, no boundary generation or boundary lines), and
serialising an empty `MimeMultiPartMixed` fails. -/
theorem multiPartMixed_single_child_transparent (gen : Nat → List Nat)
    (hdr : PartHeader) (p : MPart) (k : Nat) :
    MPart.writeToDev gen (MPart.multi hdr [p]) k = MPart.writeToDev gen p k ∧
    MPart.writeToDev gen (MPart.multi hdr []) k = none := by
  constructor <;> rw [MPart.writeToDev]

theorem writeStdHeaders_exists (hdr : PartHeader) (boundary : List Nat)
    (h : hdr.contentType.isEmpty = false) :
    ∃ x, writeStdHeadersToDev hdr boundary = some x := by
  unfold writeStdHeadersToDev
  rw [h]
  simp

theorem mkMimeText_writeToDev_isSome (gen : Nat → List Nat) (s : List Nat) (k : Nat)
    (hs : s ≠ []) :
    (MPart.writeToDev gen (mkMimeText s) k).isSome := by
  have hsf : s.isEmpty = false := by simpa using hs
  obtain ⟨x, hx⟩ := writeStdHeaders_exists ⟨ascii "text/plain", [], ascii "UTF-8", Cte.qpEnc⟩ []
    (by decide)
  rw [mkMimeText, MPart.writeToDev, hsf, hx]
  simp

theorem mkMimeHtml_writeToDev_isSome (gen : Nat → List Nat) (s : List Nat) (k : Nat)
    (hs : s ≠ []) :
    (MPart.writeToDev gen (mkMimeHtml s) k).isSome := by
  have hsf : s.isEmpty = false := by simpa using hs
  obtain ⟨x, hx⟩ := writeStdHeaders_exists ⟨ascii "text/html", [], ascii "UTF-8", Cte.qpEnc⟩ []
    (by decide)
  rw [mkMimeHtml, MPart.writeToDev, hsf, hx]
  simp

theorem mkMimeText_empty_writeToDev (gen : Nat → List Nat) (k : Nat) :
    MPart.writeToDev gen (mkMimeText []) k = none := by
  rw [mkMimeText, MPart.writeToDev]
  simp

theorem writePartList_isSome (gen : Nat → List Nat) (bstr : List Nat) (ps : List MPart)
    (hps : ∀ p ∈ ps, ∀ j, (MPart.writeToDev gen p j).isSome) :
    ∀ k, (writePartList gen bstr ps k).isSome := by
  induction ps with
  | nil => intro k; rw [writePartList]; rfl
  | cons p rest ih =>
    intro k
    obtain ⟨⟨b, k2⟩, hb⟩ := Option.isSome_iff_exists.mp (hps p (List.mem_cons_self p rest) k)
    obtain ⟨⟨bs, k3⟩, hbs⟩ := Option.isSome_iff_exists.mp
      (ih (fun q hq j => hps q (List.mem_cons_of_mem p hq) j) k2)
    simp [writePartList, hb, hbs]

theorem multi_writeToDev_isSome (gen : Nat → List Nat) (hdr : PartHeader)
    (ps : List MPart) (k : Nat) (hct : hdr.contentType.isEmpty = false) (hne : ps ≠ [])
    (hall : ∀ p ∈ ps, ∀ j, (MPart.writeToDev gen p j).isSome) :
    (MPart.writeToDev gen (MPart.multi hdr ps) k).isSome := by
  match ps with
  | [p] =>
    rw [MPart.writeToDev]
    exact hall p (List.mem_singleton_self p) k
  | p1 :: p2 :: rest =>
    rw [MPart.writeToDev]
    obtain ⟨x, hx⟩ := writeStdHeaders_exists hdr (gen k) hct
    obtain ⟨⟨body, k2⟩, hbody⟩ := Option.isSome_iff_exists.mp
      (writePartList_isSome gen (gen k) (p1 :: p2 :: rest) hall (k + 1))
    simp [hx, hbody]

/-- C1 (amended). For every `MimeMessage` with `isValid = true` whose
extra parts (added via `addMimePart`) each serialise successfully — in
particular for every valid message with no extra parts — `writeToDev`
on a sink that accepts every write succeeds and the byte stream ends with
the five bytes `\r\n.\r\n`. The proviso on the extra parts is necessary:
`isValid` does not inspect them, and a valid message with a failing extra
part (an empty `MimeText`) makes `writeToDev` return false, see the
counterexample. -/
theorem mimeMessage_writeToDev_valid (gen : Nat → List Nat) (dateStr : List Nat)
    (m : MimeMessage) (k : Nat) (hv : m.isValid = true)
    (hextras : ∀ p ∈ m.extraParts, ∀ j, (MPart.writeToDev gen p j).isSome) :
    ∃ out k2, MimeMessage.writeToDev gen dateStr m k = some (out, k2) ∧
      ∃ pre, out = pre ++ ascii "\r\n.\r\n" := by
  have hbodyne : m.messageBodyText ≠ [] ∨ m.messageBodyHtml ≠ [] := by
    by_contra hcon
    push_neg at hcon
    obtain ⟨h1, h2⟩ := hcon
    rw [MimeMessage.isValid, h1, h2] at hv
    simp at hv
  have hbody : ∀ b, m.messageBody = some b →
      ∀ j, (MPart.writeToDev gen (bodySlotPart b) j).isSome := by
    intro b hb j
    rcases b with s | s
    · have ht : m.messageBodyText = s := by simp [MimeMessage.messageBodyText, hb]
      have hh : m.messageBodyHtml = [] := by simp [MimeMessage.messageBodyHtml, hb]
      have hs : s ≠ [] := by
        rcases hbodyne with h | h
        · rw [ht] at h; exact h
        · rw [hh] at h; simp at h
      exact mkMimeText_writeToDev_isSome gen s j hs
    · have ht : m.messageBodyText = [] := by simp [MimeMessage.messageBodyText, hb]
      have hh : m.messageBodyHtml = s := by simp [MimeMessage.messageBodyHtml, hb]
      have hs : s ≠ [] := by
        rcases hbodyne with h | h
        · rw [ht] at h; simp at h
        · rw [hh] at h; exact h
      exact mkMimeHtml_writeToDev_isSome gen s j hs
  have hmbne : m.messageBody ≠ none := by
    intro hmb
    have ht : m.messageBodyText = [] := by simp [MimeMessage.messageBodyText, hmb]
    have hh : m.messageBodyHtml = [] := by simp [MimeMessage.messageBodyHtml, hmb]
    rcases hbodyne with h | h
    · rw [ht] at h; simp at h
    · rw [hh] at h; simp at h
  obtain ⟨b, hmb⟩ := Option.ne_none_iff_exists'.mp hmbne
  have hplist : m.multiPartParts = bodySlotPart b :: m.extraParts := by
    simp [MimeMessage.multiPartParts, hmb]
  have hparts : ∀ p ∈ m.multiPartParts, ∀ j, (MPart.writeToDev gen p j).isSome := by
    rw [hplist]
    intro p hp j
    rcases List.mem_cons.mp hp with hp | hp
    · subst hp; exact hbody b hmb j
    · exact hextras p hp j
  have hpne : m.multiPartParts ≠ [] := by rw [hplist]; simp
  obtain ⟨⟨body, k2⟩, hsome⟩ := Option.isSome_iff_exists.mp
    (multi_writeToDev_isSome gen multiPartMixedHeader m.multiPartParts k (by decide)
      hpne hparts)
  unfold MimeMessage.writeToDev
  rw [hv]
  simp only [Bool.not_true, Bool.false_eq_true, if_false, hsome]
  exact ⟨_, _, rfl, _, rfl⟩

theorem mimeMessage_writeToDev_valid_witness :
    c1msgOk.isValid = true ∧
    (∃ out k2, MimeMessage.writeToDev (fun _ => [98]) [] c1msgOk 0 = some (out, k2) ∧
      ∃ pre, out = pre ++ ascii "\r\n.\r\n") :=
  ⟨by decide, mimeMessage_writeToDev_valid (fun _ => [98]) [] c1msgOk 0 (by decide)
    (by intro p hp j; simp [c1msgOk] at hp)⟩

/-- C1 counterexample. `c1msgEx` is valid (`isValid` does not look at the
extra parts) yet `writeToDev` fails, because the extra empty `MimeText`
added through `addMimePart` fails to serialise. So the claim is false as
stated for messages with extra mime parts. -/
theorem mimeMessage_writeToDev_counterexample :
    c1msgEx.isValid = true ∧
    MimeMessage.writeToDev (fun _ => [98]) [] c1msgEx 0 = none := by
  refine ⟨by decide, ?_⟩
  have hv : c1msgEx.isValid = true := by decide
  have hparts : c1msgEx.multiPartParts = [mkMimeText [104, 105], mkMimeText []] := by
    simp [c1msgEx, MimeMessage.multiPartParts, bodySlotPart]
  obtain ⟨⟨bb, k2⟩, hb⟩ := Option.isSome_iff_exists.mp
    (mkMimeText_writeToDev_isSome (fun _ => [98]) [104, 105] 1 (by decide))
  have hlist2 : writePartList (fun _ => [98]) [98] [mkMimeText []] k2 = none := by
    rw [writePartList.eq_def]
    simp [mkMimeText_empty_writeToDev]
  have hlist : writePartList (fun _ => [98]) [98] [mkMimeText [104, 105], mkMimeText []] 1
      = none := by
    rw [writePartList.eq_def]
    simp [hb, hlist2]
  obtain ⟨x, hx⟩ := writeStdHeaders_exists multiPartMixedHeader [98] (by decide)
  have hmulti : MPart.writeToDev (fun _ => [98])
      (MPart.multi multiPartMixedHeader [mkMimeText [104, 105], mkMimeText []]) 0 = none := by
    rw [MPart.writeToDev]
    simp [hx, hlist]
  unfold MimeMessage.writeToDev
  rw [hv]
  simp only [Bool.not_true, Bool.false_eq_true, if_false, hparts, hmulti]

/-- C3 counterexample. `setSocketTrafficLogEnabled` has no status guard:
called on a Connected client whose traffic log is off, it changes the
configuration, so not every configuration setter is a no-op while
Connected. -/
theorem setSocketTrafficLog_counterexample :
    c3client.status = PStatus.connected ∧
    setSocketTrafficLogEnabled c3client true ≠ c3client := by
  decide

/-- C3 (amended). On a Connected client the nine guarded configuration
setters — server host, server port, client host, auth method, account
username, account password and the three timeouts — leave the entire
client configuration unchanged; `setSocketTrafficLogEnabled` however has
no guard and always applies (see the counterexample). -/
theorem setters_noop_when_connected (d : ClientData) (hconn : d.status = PStatus.connected)
    (host : List Nat) (port : Nat) (chost : List Nat) (user pass : List Nat)
    (am : AuthMethod) (t1 t2 t3 : Int) :
    setServerHost d host = d ∧ setServerPort d port = d ∧ setClientHost d chost = d ∧
    setAuthMethod d am = d ∧ setAccountUser d user = d ∧ setAccountPassword d pass = d ∧
    setConnectionTimeout d t1 = d ∧ setResponseTimeout d t2 = d ∧ setSendTimeout d t3 = d := by
  have hne : d.status ≠ PStatus.disconnected := by rw [hconn]; decide
  simp [setServerHost, setServerPort, setClientHost, setAuthMethod, setAccountUser,
    setAccountPassword, setConnectionTimeout, setResponseTimeout, setSendTimeout, hne]

theorem setters_noop_when_connected_witness :
    setServerHost c3client [1] = c3client ∧ setServerPort c3client 1 = c3client ∧
    setClientHost c3client [1] = c3client ∧ setAuthMethod c3client AuthMethod.authLogin = c3client ∧
    setAccountUser c3client [1] = c3client ∧ setAccountPassword c3client [1] = c3client ∧
    setConnectionTimeout c3client 1 = c3client ∧ setResponseTimeout c3client 1 = c3client ∧
    setSendTimeout c3client 1 = c3client :=
  setters_noop_when_connected c3client (by decide) [1] 1 [1] [1] [1] AuthMethod.authLogin 1 1 1

/-- C10. On a Disconnected client, `setAccountUser` and
`setAccountPassword` switch the auth method from AuthNone to AuthPlain as
a side effect; when the auth method is anything other than AuthNone it is
left unchanged. -/
theorem setAccount_auth_side_effect (d : ClientData) (hd : d.status = PStatus.disconnected)
    (user pass : List Nat) :
    (d.authMethod = AuthMethod.authNone →
      (setAccountUser d user).authMethod = AuthMethod.authPlain ∧
      (setAccountPassword d pass).authMethod = AuthMethod.authPlain) ∧
    (d.authMethod ≠ AuthMethod.authNone →
      (setAccountUser d user).authMethod = d.authMethod ∧
      (setAccountPassword d pass).authMethod = d.authMethod) := by
  have hne : ¬ d.status ≠ PStatus.disconnected := by rw [hd]; simp
  constructor
  · intro hnone
    unfold setAccountUser setAccountPassword
    simp [hne, hnone]
  · intro hsome
    unfold setAccountUser setAccountPassword
    simp [hne, hsome]

theorem setAccount_auth_side_effect_witness :
    ((c10client.authMethod = AuthMethod.authNone →
      (setAccountUser c10client [117]).authMethod = AuthMethod.authPlain ∧
      (setAccountPassword c10client [112]).authMethod = AuthMethod.authPlain) ∧
    (c10client.authMethod ≠ AuthMethod.authNone →
      (setAccountUser c10client [117]).authMethod = c10client.authMethod ∧
      (setAccountPassword c10client [112]).authMethod = c10client.authMethod)) ∧
    c10client.authMethod = AuthMethod.authNone :=
  ⟨setAccount_auth_side_effect c10client (by decide) [117] [112], by decide⟩

theorem startsWith_append_left : ∀ pat s : List Nat, startsWith (pat ++ s) pat = true := by
  intro pat
  induction pat with
  | nil => intro s; cases s <;> rfl
  | cons p ps ih =>
    intro s
    simp only [List.cons_append, startsWith]
    simp [ih s]

theorem replaceAll_leftmost (pat : List Nat) (hpat : pat ≠ []) (rep : List Nat) :
    ∀ a b : List Nat, noMatchBefore (a ++ (pat ++ b)) pat a.length = true →
    replaceAll (a ++ (pat ++ b)) pat rep = a ++ (rep ++ replaceAll b pat rep) := by
  obtain ⟨p, ps, rfl⟩ : ∃ p ps, pat = p :: ps := by
    rcases pat with _ | ⟨p, ps⟩
    · exact absurd rfl hpat
    · exact ⟨p, ps, rfl⟩
  intro a
  induction a with
  | nil =>
    intro b hnm
    simp only [List.nil_append, replaceAll]
    have hsw : startsWith (p :: (ps ++ b)) (p :: ps) = true := by
      have hc : p :: (ps ++ b) = (p :: ps) ++ b := rfl
      rw [hc]
      exact startsWith_append_left _ _
    rw [show (p :: ps) ++ b = p :: (ps ++ b) from rfl, replaceAllGo]
    simp [hsw, List.drop_left]
  | cons x a2 ih =>
    intro b hnm
    have hx : (x :: a2) ++ ((p :: ps) ++ b) = x :: (a2 ++ ((p :: ps) ++ b)) := by simp
    have h0 : startsWith (x :: (a2 ++ ((p :: ps) ++ b))) (p :: ps) = false := by
      simp only [noMatchBefore, List.all_eq_true, List.mem_range] at hnm
      have h00 := hnm 0 (by simp)
      rw [List.drop_zero, hx] at h00
      simpa using h00
    have hrest : noMatchBefore (a2 ++ ((p :: ps) ++ b)) (p :: ps) a2.length = true := by
      simp only [noMatchBefore, List.all_eq_true, List.mem_range] at hnm ⊢
      intro i hi
      have hstep := hnm (i + 1) (by simp only [List.length_cons]; omega)
      rw [hx, List.drop_succ_cons] at hstep
      exact hstep
    have ihb := ih b hrest
    simp only [replaceAll] at ihb ⊢
    rw [hx, replaceAllGo, h0]
    simp only [Bool.false_eq_true, if_false]
    rw [ihb]
    simp

/-- C9 (amended). Each `operator%` call replaces, in one left-to-right
pass over the current message, every occurrence of the pattern
`%(index+1)` by the argument, without re-scanning text inserted by that
same call (the replacement lands outside the continuing scan); but the
NEXT argument scans the whole updated message again, so text introduced
by an earlier substitution can be re-substituted by a later argument —
the claim's "never re-scanned" guarantee is false, see the
counterexample. -/
theorem rtlog_substitution (m arg : List Nat) (i : Nat) (a b pat rep : List Nat) :
    rtlogPct (m, i) arg = (replaceAll m (pctPat (i + 1)) arg, i + 1) ∧
    (pat ≠ [] → noMatchBefore (a ++ (pat ++ b)) pat a.length = true →
      replaceAll (a ++ (pat ++ b)) pat rep = a ++ (rep ++ replaceAll b pat rep)) := by
  constructor
  · rfl
  · intro hpat hnm
    exact replaceAll_leftmost pat hpat rep a b hnm

theorem rtlog_substitution_witness :
    (rtlogPct ([37, 49], 0) [88] = (replaceAll [37, 49] (pctPat 1) [88], 1) ∧
      replaceAll ([97] ++ ([37, 49] ++ [])) [37, 49] [88]
        = [97] ++ ([88] ++ replaceAll [] [37, 49] [88])) ∧
    ([37, 49] : List Nat) ≠ [] ∧
    noMatchBefore ([97] ++ ([37, 49] ++ [])) [37, 49] ([97] : List Nat).length = true := by
  have h := rtlog_substitution [37, 49] [88] 0 [97] [] [37, 49] [88]
  exact ⟨⟨h.1, h.2 (by decide) (by decide)⟩, by decide, by decide⟩

/-- C9 counterexample. Template "%1" with arguments "%2" then "X": the
code's repeated whole-string replacement substitutes the first argument's
inserted text "%2" again on the second call, yielding "X"; the specified
single-pass substitution, in which each argument replaces only its own
numbered slot and inserted text is never re-scanned, yields "%2". -/
theorem rtlogFormat_rescan_counterexample :
    rtlogFormat [37, 49] [[37, 50], [88]] = [88] ∧
    specSinglePassFormat [[37, 50], [88]] [37, 49] = [37, 50] ∧
    ([88] : List Nat) ≠ [37, 50] := by
  refine ⟨?_, by decide, by decide⟩
  show (rtlogPct (rtlogPct ([37, 49], 0) [37, 50]) [88]).1 = [88]
  have e1 : rtlogPct ([37, 49], 0) [37, 50] = ([37, 50], 1) := by
    show (replaceAll [37, 49] (pctPat 1) [37, 50], 1) = ([37, 50], 1)
    have hp : pctPat 1 = [37, 49] := by decide
    rw [hp]
    simp only [replaceAll]
    rw [replaceAllGo]
    norm_num [startsWith]
    rw [replaceAllGo]
  rw [e1]
  show (replaceAll [37, 50] (pctPat 2) [88], 2).1 = [88]
  have hp : pctPat 2 = [37, 50] := by decide
  rw [hp]
  simp only [replaceAll]
  rw [replaceAllGo]
  norm_num [startsWith]
  rw [replaceAllGo]

theorem isAllowed_true (c ca : Conn) (ha : pn_isAllowedToSend c = (true, ca)) :
    ca = c ∧ c.buffered = [] := by
  unfold pn_isAllowedToSend at ha
  split at ha
  · rename_i hemp
    injection ha with h1 h2
    exact ⟨h2.symm, List.isEmpty_iff.mp hemp⟩
  · injection ha with h1 h2
    simp at h1

theorem isAllowed_pres (c : Conn) (ok : Bool) (c2 : Conn)
    (he : pn_isAllowedToSend c = (ok, c2)) (h : writesOk c.trace = true) :
    writesOk c2.trace = true := by
  unfold pn_isAllowedToSend at he
  split at he
  · injection he with h1 h2
    subst h2
    exact h
  · injection he with h1 h2
    subst h2
    simp only [writesOk, List.all_append, List.all_map, Bool.and_eq_true]
    refine ⟨h, ?_⟩
    simp [Function.comp, eventOk]

theorem waitResp_trace (e : List Nat) (c : Conn) :
    ((pn_waitForResponse e c).2).trace = c.trace := rfl

theorem waitResp_pres (e : List Nat) (c : Conn) (r : Option (List Nat)) (c2 : Conn)
    (he : pn_waitForResponse e c = (r, c2)) (h : writesOk c.trace = true) :
    writesOk c2.trace = true := by
  have ht := waitResp_trace e c
  rw [he] at ht
  rw [ht]
  exact h

theorem sendBytes_pres (c : Conn) (data : List Nat) (ok : Bool) (c2 : Conn)
    (he : pn_sendMessageBytes c data = (ok, c2)) (h : writesOk c.trace = true) :
    writesOk c2.trace = true := by
  unfold pn_sendMessageBytes at he
  rcases ha : pn_isAllowedToSend c with ⟨ok1, ca⟩
  rw [ha] at he
  have hca := isAllowed_pres c ok1 ca ha h
  cases ok1 with
  | false =>
    injection he with h1 h2
    subst h2
    exact hca
  | true =>
    obtain ⟨hceq, hbuf⟩ := isAllowed_true c ca ha
    injection he with h1 h2
    subst h2
    simp only [writesOk, List.all_append, Bool.and_eq_true]
    refine ⟨hca, ?_⟩
    subst hceq
    simp [eventOk, hbuf]

theorem sendMime_pres (gen : Nat → List Nat) (dateStr : List Nat) (c : Conn)
    (msg : MimeMessage) (k : Nat) (ok : Bool) (c2 : Conn) (k2 : Nat)
    (he : pn_sendMimeMessage gen dateStr c msg k = (ok, c2, k2))
    (h : writesOk c.trace = true) :
    writesOk c2.trace = true := by
  unfold pn_sendMimeMessage at he
  rcases ha : pn_isAllowedToSend c with ⟨ok1, ca⟩
  rw [ha] at he
  have hca := isAllowed_pres c ok1 ca ha h
  cases ok1 with
  | false =>
    injection he with h1 h2
    injection h2 with h2a h2b
    subst h2a
    exact hca
  | true =>
    obtain ⟨hceq, hbuf⟩ := isAllowed_true c ca ha
    rcases hw : MimeMessage.writeToDev gen dateStr msg k with _ | ⟨body, kk⟩
    · rw [hw] at he
      injection he with h1 h2
      injection h2 with h2a h2b
      subst h2a
      exact hca
    · rw [hw] at he
      injection he with h1 h2
      injection h2 with h2a h2b
      subst h2a
      simp only [writesOk, List.all_append, Bool.and_eq_true]
      refine ⟨hca, ?_⟩
      subst hceq
      simp [eventOk, hbuf]

theorem sendAndWait_pres (c : Conn) (d e : List Nat) (ok : Bool) (c2 : Conn)
    (he : pn_sendAndWaitFor c d e = (ok, c2)) (h : writesOk c.trace = true) :
    writesOk c2.trace = true := by
  unfold pn_sendAndWaitFor at he
  split at he
  · rename_i cb hsb
    injection he with h1 h2
    subst h2
    exact sendBytes_pres c d _ cb hsb h
  · rename_i cb hsb
    have hcb := sendBytes_pres c d _ cb hsb h
    split at he
    · rename_i cw hw
      injection he with h1 h2
      subst h2
      exact waitResp_pres e cb _ cw hw hcb
    · rename_i a cw hw
      injection he with h1 h2
      subst h2
      exact waitResp_pres e cb _ cw hw hcb

theorem rcptLoop_pres (cmds : List (List Nat)) :
    ∀ c ok c2, rcptLoop c cmds = (ok, c2) → writesOk c.trace = true →
    writesOk c2.trace = true := by
  induction cmds with
  | nil =>
    intro c ok c2 he h
    unfold rcptLoop at he
    injection he with h1 h2
    subst h2
    exact h
  | cons cmd rest ih =>
    intro c ok c2 he h
    unfold rcptLoop at he
    rcases hs : pn_sendAndWaitFor c cmd (ascii "250") with ⟨ok1, c1⟩
    rw [hs] at he
    have hc1 := sendAndWait_pres c cmd (ascii "250") ok1 c1 hs h
    cases ok1 with
    | false =>
      injection he with h1 h2
      subst h2
      exact hc1
    | true => exact ih c1 ok c2 he hc1

theorem tls_pres (cd : ClientData) (c : Conn) (ok : Bool) (c2 : Conn)
    (he : connectStepTls cd c = (ok, c2)) (h : writesOk c.trace = true) :
    writesOk c2.trace = true := by
  unfold connectStepTls at he
  split at he
  · injection he with h1 h2
    subst h2
    exact h
  · split at he
    · rename_i c1 hs
      injection he with h1 h2
      subst h2
      exact sendAndWait_pres c _ _ _ c1 hs h
    · rename_i c1 hs
      have hc1 := sendAndWait_pres c _ _ _ c1 hs h
      split at he
      · injection he with h1 h2
        subst h2
        exact hc1
      · exact sendAndWait_pres c1 _ _ ok c2 he hc1

theorem auth_pres (mac : List Nat → List Nat → List Nat) (cd : ClientData) (c : Conn)
    (ok : Bool) (c2 : Conn) (he : connectStepAuth mac cd c = (ok, c2))
    (h : writesOk c.trace = true) :
    writesOk c2.trace = true := by
  unfold connectStepAuth at he
  split at he
  · injection he with h1 h2
    subst h2
    exact h
  · exact sendAndWait_pres c _ _ ok c2 he h
  · split at he
    · rename_i c1 hs
      injection he with h1 h2
      subst h2
      exact sendAndWait_pres c _ _ _ c1 hs h
    · rename_i c1 hs
      have hc1 := sendAndWait_pres c _ _ _ c1 hs h
      split at he
      · rename_i cu hu
        injection he with h1 h2
        subst h2
        exact sendAndWait_pres c1 _ _ _ cu hu hc1
      · rename_i cu hu
        have hcu := sendAndWait_pres c1 _ _ _ cu hu hc1
        exact sendAndWait_pres cu _ _ ok c2 he hcu
  · split at he
    · rename_i c1 hs
      injection he with h1 h2
      subst h2
      exact sendBytes_pres c _ _ c1 hs h
    · rename_i c1 hs
      have hc1 := sendBytes_pres c _ _ c1 hs h
      split at he
      · rename_i cw hw
        injection he with h1 h2
        subst h2
        exact waitResp_pres _ c1 _ cw hw hc1
      · rename_i msgBody cw hw
        have hcw := waitResp_pres _ c1 _ cw hw hc1
        exact sendAndWait_pres cw _ _ ok c2 he hcw

theorem connect_writesOk (mac : List Nat → List Nat → List Nat) (cd : ClientData) (c : Conn)
    (h : writesOk c.trace = true) :
    writesOk (connectToServer mac cd c).2.2.trace = true := by
  unfold connectToServer
  split
  · exact h
  split
  · exact h
  split
  · exact h
  split
  · exact h
  split
  · exact h
  split
  · exact h
  split
  · rename_i c1 hw
    exact waitResp_pres _ c _ c1 hw h
  · rename_i b0 c1 hw
    have h1 := waitResp_pres _ c _ c1 hw h
    split
    · rename_i c2 hs
      exact sendAndWait_pres c1 _ _ _ c2 hs h1
    · rename_i c2 hs
      have h2 := sendAndWait_pres c1 _ _ _ c2 hs h1
      split
      · rename_i c3 ht
        exact tls_pres cd c2 _ c3 ht h2
      · rename_i c3 ht
        have h3 := tls_pres cd c2 _ c3 ht h2
        split
        · rename_i c4 ha
          exact auth_pres mac cd c3 _ c4 ha h3
        · rename_i c4 ha
          exact auth_pres mac cd c3 _ c4 ha h3

theorem sendMessage_writesOk (gen : Nat → List Nat) (dateStr : List Nat) (cd : ClientData)
    (c : Conn) (msg : MimeMessage) (k : Nat) (h : writesOk c.trace = true) :
    writesOk (sendMessage gen dateStr cd c msg k).2.2.1.trace = true := by
  unfold sendMessage
  split
  · exact h
  split
  · exact h
  split
  · rename_i c1 hs
    exact sendAndWait_pres c _ _ _ c1 hs h
  · rename_i c1 hs
    have h1 := sendAndWait_pres c _ _ _ c1 hs h
    split
    · rename_i c2 hr
      exact rcptLoop_pres _ c1 _ c2 hr h1
    · rename_i c2 hr
      have h2 := rcptLoop_pres _ c1 _ c2 hr h1
      split
      · rename_i c3 hr2
        exact rcptLoop_pres _ c2 _ c3 hr2 h2
      · rename_i c3 hr2
        have h3 := rcptLoop_pres _ c2 _ c3 hr2 h2
        split
        · rename_i c4 hd
          exact sendAndWait_pres c3 _ _ _ c4 hd h3
        · rename_i c4 hd
          have h4 := sendAndWait_pres c3 _ _ _ c4 hd h3
          split
          · rename_i c5 k5 hm
            exact sendMime_pres gen dateStr c4 msg k _ c5 k5 hm h4
          · rename_i c5 k5 hm
            have h5 := sendMime_pres gen dateStr c4 msg k _ c5 k5 hm h4
            split
            · rename_i c6 hw
              exact waitResp_pres _ c5 _ c6 hw h5
            · rename_i b6 c6 hw
              exact waitResp_pres _ c5 _ c6 hw h5

/-- C2. Every client→server send goes through `pn_isAllowedToSend`: if a
line is buffered for reading at the moment of a send, the driver writes
nothing, logs every pending buffered line and the send fails (both
`pn_sendMessage` overloads); consequently, over any schedule of server
data, every write recorded during `connectToServer` or `sendMessage`
happens while no line is buffered for reading. -/
theorem smtp_no_crosstalk (c cw : Conn) (data dateStr : List Nat) (gen : Nat → List Nat)
    (msg : MimeMessage) (k : Nat) (mac : List Nat → List Nat → List Nat) (cd : ClientData) :
    (c.buffered ≠ [] →
      pn_sendMessageBytes c data = (false, loggedConn c) ∧
      pn_sendMimeMessage gen dateStr c msg k = (false, loggedConn c, k)) ∧
    (writesOk cw.trace = true →
      writesOk (connectToServer mac cd cw).2.2.trace = true ∧
      writesOk (sendMessage gen dateStr cd cw msg k).2.2.1.trace = true) := by
  constructor
  · intro hbuf
    have hf : c.buffered.isEmpty = false := by simpa using hbuf
    have his : pn_isAllowedToSend c = (false, loggedConn c) := by
      unfold pn_isAllowedToSend loggedConn
      rw [hf]
      simp
    constructor
    · unfold pn_sendMessageBytes
      rw [his]
    · unfold pn_sendMimeMessage
      rw [his]
  · intro hw
    exact ⟨connect_writesOk mac cd cw hw, sendMessage_writesOk gen dateStr cd cw msg k hw⟩

theorem smtp_no_crosstalk_witness :
    (pn_sendMessageBytes c2connA [65] = (false, loggedConn c2connA) ∧
     pn_sendMimeMessage (fun _ => [98]) [] c2connA c1msgOk 0 = (false, loggedConn c2connA, 0)) ∧
    (writesOk (connectToServer (fun _ _ => []) c10client c2connB).2.2.trace = true ∧
     writesOk (sendMessage (fun _ => [98]) [] c10client c2connB c1msgOk 0).2.2.1.trace = true) := by
  have h := smtp_no_crosstalk c2connA c2connB [65] [] (fun _ => [98]) c1msgOk 0
    (fun _ _ => []) c10client
  exact ⟨h.1 (by decide), h.2 (by decide)⟩

theorem sendMessage_shape (gen : Nat → List Nat) (dateStr : List Nat) (cd : ClientData)
    (c : Conn) (msg : MimeMessage) (k : Nat)
    (hv : msg.isValid = true) (hst : cd.status = PStatus.connected) :
    (∃ c2 k2, sendMessage gen dateStr cd c msg k = (true, cd, c2, k2)) ∨
    (∃ c2 k2, sendMessage gen dateStr cd c msg k = pn_closeAndFailSend cd c2 k2) := by
  unfold sendMessage
  rw [hv, hst]
  simp only [Bool.true_eq_false, if_false, ne_eq, not_true_eq_false]
  split
  · rename_i c1 hs
    exact Or.inr ⟨c1, k, rfl⟩
  · rename_i c1 hs
    split
    · rename_i c2 hr
      exact Or.inr ⟨c2, k, rfl⟩
    · rename_i c2 hr
      split
      · rename_i c3 hr2
        exact Or.inr ⟨c3, k, rfl⟩
      · rename_i c3 hr2
        split
        · rename_i c4 hd
          exact Or.inr ⟨c4, k, rfl⟩
        · rename_i c4 hd
          split
          · rename_i c5 k5 hm
            exact Or.inr ⟨c5, k5, rfl⟩
          · rename_i c5 k5 hm
            split
            · rename_i c6 hw
              exact Or.inr ⟨c6, k5, rfl⟩
            · rename_i b6 c6 hw
              exact Or.inl ⟨c6, k5, rfl⟩

/-- C8. During `Client::sendMessage`: a failure because the message is
invalid, or because the client is not connected, returns with the client
state and the connection untouched; whereas on a Connected client with a
valid message, every failure of the MAIL FROM / RCPT TO / DATA /
message-body steps closes the socket and sets the status to Disconnected,
so a subsequent call must reconnect. -/
theorem sendMessage_failure_semantics (gen : Nat → List Nat) (dateStr : List Nat)
    (cd : ClientData) (c : Conn) (msg : MimeMessage) (k : Nat) :
    (msg.isValid = false → sendMessage gen dateStr cd c msg k = (false, cd, c, k)) ∧
    (msg.isValid = true → cd.status ≠ PStatus.connected →
      sendMessage gen dateStr cd c msg k = (false, cd, c, k)) ∧
    (msg.isValid = true → cd.status = PStatus.connected →
      (sendMessage gen dateStr cd c msg k).1 = false →
      (sendMessage gen dateStr cd c msg k).2.1.status = PStatus.disconnected ∧
      (sendMessage gen dateStr cd c msg k).2.2.1.socketOpen = false) := by
  refine ⟨?_, ?_, ?_⟩
  · intro hinv
    unfold sendMessage
    rw [hinv]
    simp
  · intro hv hst
    unfold sendMessage
    rw [hv]
    simp [hst]
  · intro hv hst hfail
    rcases sendMessage_shape gen dateStr cd c msg k hv hst with ⟨c2, k2, heq⟩ | ⟨c2, k2, heq⟩
    · rw [heq] at hfail
      simp at hfail
    · rw [heq]
      exact ⟨rfl, rfl⟩

theorem sendMessage_failure_semantics_witness :
    (sendMessage (fun _ => [98]) [] c8client c2connA
        { c1msgOk with messageSubject := [] } 0 = (false, c8client, c2connA, 0)) ∧
    (sendMessage (fun _ => [98]) [] c10client c2connA c1msgOk 0
        = (false, c10client, c2connA, 0)) ∧
    ((sendMessage (fun _ => [98]) [] c8client c2connB c1msgOk 0).2.1.status
        = PStatus.disconnected ∧
     (sendMessage (fun _ => [98]) [] c8client c2connB c1msgOk 0).2.2.1.socketOpen = false) := by
  refine ⟨?_, ?_, ?_⟩
  · exact (sendMessage_failure_semantics (fun _ => [98]) [] c8client c2connA
      { c1msgOk with messageSubject := [] } 0).1 (by decide)
  · exact (sendMessage_failure_semantics (fun _ => [98]) [] c10client c2connA c1msgOk 0).2.1
      (by decide) (by decide)
  · exact (sendMessage_failure_semantics (fun _ => [98]) [] c8client c2connB c1msgOk 0).2.2
      (by decide) (by decide) (by decide)
